import Mathlib

/-!
Verification development for the FT2 paper-trading system.

The definitions below are a shallow embedding of the Python sources:
`orderblock_strategy.py` (indicator pipeline and signal detector) and
`paper_trading_engine.py` (position lifecycle engine and equity filter).
Prices, volumes and monetary amounts are modelled as rationals; a pandas
NaN (missing value) is modelled as `none : Option ℚ`.  Comparisons against
NaN are false in pandas/Python, which the `Option`-aware comparison
helpers reproduce.
-/

namespace FT2

/-- One OHLCV candle row.  The field `opn` models the `open` column
(`open` is a reserved word in Lean); a timestamp is an abstract tick. -/
structure Candle where
  timestamp : ℕ
  opn : ℚ
  high : ℚ
  low : ℚ
  close : ℚ
  volume : ℚ
deriving DecidableEq, Repr

/-- Arithmetic mean of a list of rationals (a pandas window mean). -/
def mean (l : List ℚ) : ℚ := l.sum / l.length

/-- Sequence a list of optional values: `none` (NaN) anywhere poisons the
whole window, as a pandas rolling mean over a window containing NaN is NaN. -/
def seqOpt : List (Option ℚ) → Option (List ℚ)
  | [] => some []
  | o :: rest =>
    match o with
    | none => none
    | some v => (seqOpt rest).map (fun vs => v :: vs)

/-- Column `pc`: percentage change of `open` over 4 bars,
`(open[i] - open[i-4]) / open[i-4] * 100`; NaN for the first 4 rows. -/
def pc (df : List Candle) (i : ℕ) : Option ℚ :=
  if 4 ≤ i ∧ i < df.length then
    match df[i]?, df[i - 4]? with
    | some ci, some cp => some ((ci.opn - cp.opn) / cp.opn * 100)
    | _, _ => none
  else none

/-- Column `volume_ma`: `volume.rolling(20).mean().shift(1)` — the mean of
the 20 volumes at rows `i-20 .. i-1`; NaN for the first 20 rows. -/
def volume_ma (df : List Candle) (i : ℕ) : Option ℚ :=
  if 20 ≤ i ∧ i < df.length then
    some (mean (((df.take i).drop (i - 20)).map Candle.volume))
  else none

/-- Column `volume_percentile`: `volume.expanding().apply(calc_volume_percentile)`.
With fewer than 2 observations the helper returns the neutral 50.0; otherwise it
is the fraction of rows strictly before `i` whose volume is strictly below the
volume at row `i`, times 100. -/
def volume_percentile (df : List Candle) (i : ℕ) : Option ℚ :=
  if i < df.length then
    if i = 0 then some 50
    else
      match df[i]? with
      | some ci =>
          some ((((df.take i).filter (fun c => decide (c.volume < ci.volume))).length : ℚ)
            / (i : ℚ) * 100)
      | none => none
  else none

/-- A `close.rolling(p).mean().shift(1)` column: the mean of the closes at
rows `i-p .. i-1`; NaN for the first `p` rows. -/
def sma_shift (p : ℕ) (df : List Candle) (i : ℕ) : Option ℚ :=
  if p ≤ i ∧ i < df.length then
    some (mean (((df.take i).drop (i - p)).map Candle.close))
  else none

/-- Column `sma20`: rolling mean of close over `trend_period` rows, shifted by one. -/
def sma20 (trend_period : ℕ) (df : List Candle) (i : ℕ) : Option ℚ :=
  sma_shift trend_period df i

/-- Column `sma50`: rolling mean of close over 50 rows, shifted by one. -/
def sma50 (df : List Candle) (i : ℕ) : Option ℚ :=
  sma_shift 50 df i

/-- Column `tr`: true range
`max(high - low, max(|high - prevClose|, |low - prevClose|))`; NaN at row 0
because `close.shift(1)` is NaN there and `np.maximum` propagates NaN. -/
def tr (df : List Candle) (i : ℕ) : Option ℚ :=
  if 1 ≤ i ∧ i < df.length then
    match df[i]?, df[i - 1]? with
    | some ci, some cp =>
        some (max (ci.high - ci.low) (max |ci.high - cp.close| |ci.low - cp.close|))
    | _, _ => none
  else none

/-- Column `atr`: `tr.rolling(14).mean().shift(1)` — the mean of the true
ranges at rows `i-14 .. i-1`; NaN while fewer than 14 rows precede `i`, and NaN
whenever the window contains a NaN true range (which happens exactly when the
window reaches row 0). -/
def atr (df : List Candle) (i : ℕ) : Option ℚ :=
  if 14 ≤ i ∧ i < df.length then
    (seqOpt ((List.range 14).map (fun k => tr df (i - 14 + k)))).map mean
  else none

/-- Column `expanding_avg_atr`: `atr.expanding().apply(lambda x: x[:-1].mean()
if len(x) > 1 else nan)` — the mean (NaN-skipping, as pandas `Series.mean`)
of the ATR values at rows strictly before `i`; NaN at row 0 and NaN while no
prior ATR value is defined. -/
def expanding_avg_atr (df : List Candle) (i : ℕ) : Option ℚ :=
  if 1 ≤ i ∧ i < df.length then
    if (List.range i).filterMap (atr df) = [] then none
    else some (mean ((List.range i).filterMap (atr df)))
  else none

/-- Column `roc`: momentum `(close[i] - close[i-10]) / close[i-10] * 100`;
NaN for the first 10 rows. -/
def roc (df : List Candle) (i : ℕ) : Option ℚ :=
  if 10 ≤ i ∧ i < df.length then
    match df[i]?, df[i - 10]? with
    | some ci, some cp => some ((ci.close - cp.close) / cp.close * 100)
    | _, _ => none
  else none

/-! ### Prefix stability of the indicator pipeline -/

theorem take_append_stable {α : Type} (xs ys : List α) (i : ℕ) (h : i ≤ xs.length) :
    (xs ++ ys).take i = xs.take i :=
  List.take_append_of_le_length h

theorem getElem?_append_stable {α : Type} (xs ys : List α) (j : ℕ) (h : j < xs.length) :
    (xs ++ ys)[j]? = xs[j]? :=
  List.getElem?_append_left h

theorem length_append_lt {α : Type} (xs ys : List α) (i : ℕ) (h : i < xs.length) :
    i < (xs ++ ys).length := by
  simp only [List.length_append]; omega

theorem pc_stable (xs ys : List Candle) (i : ℕ) (h : i < xs.length) :
    pc (xs ++ ys) i = pc xs i := by
  unfold pc
  by_cases h4 : 4 ≤ i
  · rw [if_pos ⟨h4, length_append_lt xs ys i h⟩, if_pos ⟨h4, h⟩,
      getElem?_append_stable xs ys i h, getElem?_append_stable xs ys (i - 4) (by omega)]
  · rw [if_neg (by omega), if_neg (by omega)]

theorem volume_ma_stable (xs ys : List Candle) (i : ℕ) (h : i < xs.length) :
    volume_ma (xs ++ ys) i = volume_ma xs i := by
  unfold volume_ma
  by_cases h20 : 20 ≤ i
  · rw [if_pos ⟨h20, length_append_lt xs ys i h⟩, if_pos ⟨h20, h⟩,
      take_append_stable xs ys i (by omega)]
  · rw [if_neg (by omega), if_neg (by omega)]

theorem volume_percentile_stable (xs ys : List Candle) (i : ℕ) (h : i < xs.length) :
    volume_percentile (xs ++ ys) i = volume_percentile xs i := by
  unfold volume_percentile
  rw [if_pos (length_append_lt xs ys i h), if_pos h,
    getElem?_append_stable xs ys i h, take_append_stable xs ys i (by omega)]

theorem sma_shift_stable (p : ℕ) (xs ys : List Candle) (i : ℕ) (h : i < xs.length) :
    sma_shift p (xs ++ ys) i = sma_shift p xs i := by
  unfold sma_shift
  by_cases hp : p ≤ i
  · rw [if_pos ⟨hp, length_append_lt xs ys i h⟩, if_pos ⟨hp, h⟩,
      take_append_stable xs ys i (by omega)]
  · rw [if_neg (by omega), if_neg (by omega)]

theorem tr_stable (xs ys : List Candle) (i : ℕ) (h : i < xs.length) :
    tr (xs ++ ys) i = tr xs i := by
  unfold tr
  by_cases h1 : 1 ≤ i
  · rw [if_pos ⟨h1, length_append_lt xs ys i h⟩, if_pos ⟨h1, h⟩,
      getElem?_append_stable xs ys i h, getElem?_append_stable xs ys (i - 1) (by omega)]
  · rw [if_neg (by omega), if_neg (by omega)]

theorem map_congr_mem {α β : Type} (l : List α) (f g : α → β)
    (h : ∀ x ∈ l, f x = g x) : l.map f = l.map g := by
  induction l with
  | nil => rfl
  | cons a rest ih =>
      simp only [List.map_cons, h a (List.mem_cons_self a rest)]
      rw [ih (fun x hx => h x (List.mem_cons_of_mem a hx))]

theorem atr_stable (xs ys : List Candle) (i : ℕ) (h : i < xs.length) :
    atr (xs ++ ys) i = atr xs i := by
  unfold atr
  by_cases h14 : 14 ≤ i
  · rw [if_pos ⟨h14, length_append_lt xs ys i h⟩, if_pos ⟨h14, h⟩]
    have : (List.range 14).map (fun k => tr (xs ++ ys) (i - 14 + k)) =
        (List.range 14).map (fun k => tr xs (i - 14 + k)) := by
      refine map_congr_mem _ _ _ (fun k hk => ?_)
      exact tr_stable xs ys (i - 14 + k) (by simp only [List.mem_range] at hk; omega)
    rw [this]
  · rw [if_neg (by omega), if_neg (by omega)]

theorem filterMap_congr_mem {α β : Type} (l : List α) (f g : α → Option β)
    (h : ∀ x ∈ l, f x = g x) : l.filterMap f = l.filterMap g := by
  induction l with
  | nil => rfl
  | cons a rest ih =>
      simp only [List.filterMap_cons, h a (List.mem_cons_self a rest)]
      rw [ih (fun x hx => h x (List.mem_cons_of_mem a hx))]

theorem expanding_avg_atr_stable (xs ys : List Candle) (i : ℕ) (h : i < xs.length) :
    expanding_avg_atr (xs ++ ys) i = expanding_avg_atr xs i := by
  have hfm : (List.range i).filterMap (atr (xs ++ ys)) = (List.range i).filterMap (atr xs) := by
    refine filterMap_congr_mem _ _ _ (fun j hj => ?_)
    exact atr_stable xs ys j (by simp only [List.mem_range] at hj; omega)
  unfold expanding_avg_atr
  rw [hfm]
  by_cases h1 : 1 ≤ i
  · rw [if_pos (show 1 ≤ i ∧ i < (xs ++ ys).length from ⟨h1, length_append_lt xs ys i h⟩),
      if_pos (show 1 ≤ i ∧ i < xs.length from ⟨h1, h⟩)]
  · rw [if_neg (show ¬ (1 ≤ i ∧ i < (xs ++ ys).length) by omega),
      if_neg (show ¬ (1 ≤ i ∧ i < xs.length) by omega)]

theorem roc_stable (xs ys : List Candle) (i : ℕ) (h : i < xs.length) :
    roc (xs ++ ys) i = roc xs i := by
  unfold roc
  by_cases h10 : 10 ≤ i
  · rw [if_pos ⟨h10, length_append_lt xs ys i h⟩, if_pos ⟨h10, h⟩,
      getElem?_append_stable xs ys i h, getElem?_append_stable xs ys (i - 10) (by omega)]
  · rw [if_neg (by omega), if_neg (by omega)]

/-- Claim C1: every indicator column produced by `calculate_indicators`
(percent-change, volume moving average, volume percentile, sma20, sma50,
true range, ATR, expanding ATR baseline, momentum) is a pure function of
the candles at indices `≤ i`: appending any further candles `ys` after a
sequence `xs` leaves every indicator value at each index `i < xs.length`
unchanged, so batch computation and incremental recomputation after each
append agree on every overlapping row. -/
theorem indicators_prefix_stable (trend_period : ℕ) (xs ys : List Candle) (i : ℕ)
    (h : i < xs.length) :
    pc (xs ++ ys) i = pc xs i ∧
    volume_ma (xs ++ ys) i = volume_ma xs i ∧
    volume_percentile (xs ++ ys) i = volume_percentile xs i ∧
    sma20 trend_period (xs ++ ys) i = sma20 trend_period xs i ∧
    sma50 (xs ++ ys) i = sma50 xs i ∧
    tr (xs ++ ys) i = tr xs i ∧
    atr (xs ++ ys) i = atr xs i ∧
    expanding_avg_atr (xs ++ ys) i = expanding_avg_atr xs i ∧
    roc (xs ++ ys) i = roc xs i :=
  ⟨pc_stable xs ys i h, volume_ma_stable xs ys i h, volume_percentile_stable xs ys i h,
    sma_shift_stable trend_period xs ys i h, sma_shift_stable 50 xs ys i h,
    tr_stable xs ys i h, atr_stable xs ys i h, expanding_avg_atr_stable xs ys i h,
    roc_stable xs ys i h⟩

/-- A fixed sample candle used to instantiate theorems with hypotheses. -/
def c0 : Candle := { timestamp := 0, opn := 100, high := 101, low := 99, close := 100, volume := 1 }

/-- Witness for C1: the stability conjunction holds concretely for a
5-candle prefix extended by one candle, at row 2. -/
theorem indicators_prefix_stable_witness :
    (2 < (List.replicate 5 c0).length) ∧
    (pc (List.replicate 5 c0 ++ [c0]) 2 = pc (List.replicate 5 c0) 2 ∧
     volume_ma (List.replicate 5 c0 ++ [c0]) 2 = volume_ma (List.replicate 5 c0) 2 ∧
     volume_percentile (List.replicate 5 c0 ++ [c0]) 2 = volume_percentile (List.replicate 5 c0) 2 ∧
     sma20 20 (List.replicate 5 c0 ++ [c0]) 2 = sma20 20 (List.replicate 5 c0) 2 ∧
     sma50 (List.replicate 5 c0 ++ [c0]) 2 = sma50 (List.replicate 5 c0) 2 ∧
     tr (List.replicate 5 c0 ++ [c0]) 2 = tr (List.replicate 5 c0) 2 ∧
     atr (List.replicate 5 c0 ++ [c0]) 2 = atr (List.replicate 5 c0) 2 ∧
     expanding_avg_atr (List.replicate 5 c0 ++ [c0]) 2 = expanding_avg_atr (List.replicate 5 c0) 2 ∧
     roc (List.replicate 5 c0 ++ [c0]) 2 = roc (List.replicate 5 c0) 2) :=
  ⟨by decide, indicators_prefix_stable 20 (List.replicate 5 c0) [c0] 2 (by decide)⟩

/-! ### Signal detector (`OrderBlockStrategy`) -/

/-- Trade direction. -/
inductive Dir
  | long
  | short
deriving DecidableEq, Repr

/-- The dictionary returned by `detect_signal`. -/
structure Signal where
  dir : Dir
  entry_price : ℚ
  stop_loss : ℚ
  timestamp : ℕ
  ob_index : ℕ
deriving DecidableEq, Repr

/-- The mutable state and parameters of `OrderBlockStrategy`.  The
constructor initializes `last_trade_index` to `-min_trades_distance`. -/
structure StratState where
  sensitivity : ℚ
  min_volume_percentile : ℚ
  trend_period : ℕ
  min_trades_distance : ℤ
  last_trade_index : ℤ
deriving DecidableEq, Repr

/-- Python `maybe_nan < b`: comparison against NaN is false. -/
def optLtB (o : Option ℚ) (b : ℚ) : Bool :=
  match o with
  | some x => decide (x < b)
  | none => false

/-- Python `maybe_nan >= b`: comparison against NaN is false. -/
def optGeB (o : Option ℚ) (b : ℚ) : Bool :=
  match o with
  | some x => decide (b ≤ x)
  | none => false

/-- Python `maybe_nan > b`: comparison against NaN is false. -/
def optGtB (o : Option ℚ) (b : ℚ) : Bool :=
  match o with
  | some x => decide (b < x)
  | none => false

/-- Python `maybe_nan <= b`: comparison against NaN is false. -/
def optLeB (o : Option ℚ) (b : ℚ) : Bool :=
  match o with
  | some x => decide (x ≤ b)
  | none => false

/-- `is_valid_trade_condition(df, idx, trade_type)`: spacing, volume,
trend/momentum and volatility gates, in the source's check order (`lng`
is true for the `'long'` trade type). -/
def is_valid_trade_condition (s : StratState) (df : List Candle) (idx : ℕ) (lng : Bool) : Bool :=
  if (idx : ℤ) - s.last_trade_index < s.min_trades_distance then false
  else
    match volume_percentile df idx with
    | none => false
    | some vp =>
      if vp < s.min_volume_percentile then false
      else
        match sma20 s.trend_period df idx, sma50 df idx, roc df idx with
        | some a, some b, some r =>
            (if lng then decide (b < a) && decide ((0 : ℚ) < r)
             else decide (a < b) && decide (r < (0 : ℚ))) &&
            (match atr df idx, expanding_avg_atr df idx with
             | some current_atr, some avg_atr => decide (current_atr ≤ avg_atr * (3 / 2))
             | _, _ => false)
        | _, _, _ => false

/-- The index list visited by `for j in range(idx - 4, max(idx - 16, -1), -1)`:
`idx-4, idx-5, ...` down to (but excluding) `max(idx-16, -1)`. -/
def obIndices (idx : ℕ) : List ℕ :=
  (List.range (((idx : ℤ) - 4 - max ((idx : ℤ) - 16) (-1)).toNat)).map (fun k => idx - 4 - k)

/-- The long-side order-block loop body: walk the index list, and at the first
bearish candle (`close < open`) whose low is below the current price, return
that index and its low; otherwise keep scanning. -/
def obScanLong (df : List Candle) (cur : ℚ) : List ℕ → Option (ℕ × ℚ)
  | [] => none
  | j :: rest =>
    match df[j]? with
    | some c =>
        if c.close < c.opn ∧ c.low < cur then some (j, c.low)
        else obScanLong df cur rest
    | none => obScanLong df cur rest

/-- The short-side order-block loop body: first bullish candle
(`close > open`) whose high is above the current price. -/
def obScanShort (df : List Candle) (cur : ℚ) : List ℕ → Option (ℕ × ℚ)
  | [] => none
  | j :: rest =>
    match df[j]? with
    | some c =>
        if c.opn < c.close ∧ cur < c.high then some (j, c.high)
        else obScanShort df cur rest
    | none => obScanShort df cur rest

/-- The guard of the long branch of `detect_signal`: all gates pass and the
percent-change series crosses up through `+sensitivity`. -/
def long_trigger (s : StratState) (df : List Candle) (idx : ℕ) : Bool :=
  is_valid_trade_condition s df idx true &&
    optLtB (pc df (idx - 1)) s.sensitivity && optGeB (pc df idx) s.sensitivity

/-- The guard of the short branch of `detect_signal`: all gates pass and the
percent-change series crosses down through `-sensitivity`. -/
def short_trigger (s : StratState) (df : List Candle) (idx : ℕ) : Bool :=
  is_valid_trade_condition s df idx false &&
    optGtB (pc df (idx - 1)) (-s.sensitivity) && optLeB (pc df idx) (-s.sensitivity)

/-- `detect_signal(df, idx)`: returns the emitted signal (if any) together
with the strategy state after the call (`last_trade_index` advances to `idx`
exactly when a signal is emitted). -/
def detect_signal (s : StratState) (df : List Candle) (idx : ℕ) : Option Signal × StratState :=
  if idx < 50 then (none, s)
  else if long_trigger s df idx then
    match df[idx]? with
    | none => (none, s)
    | some cur =>
      match obScanLong df cur.close (obIndices idx) with
      | some (j, ob_low) =>
          (some { dir := Dir.long, entry_price := cur.close, stop_loss := ob_low,
                  timestamp := cur.timestamp, ob_index := j },
           { s with last_trade_index := (idx : ℤ) })
      | none => (none, s)
  else if short_trigger s df idx then
    match df[idx]? with
    | none => (none, s)
    | some cur =>
      match obScanShort df cur.close (obIndices idx) with
      | some (j, ob_high) =>
          (some { dir := Dir.short, entry_price := cur.close, stop_loss := ob_high,
                  timestamp := cur.timestamp, ob_index := j },
           { s with last_trade_index := (idx : ℤ) })
      | none => (none, s)
  else (none, s)

/-! ### Position lifecycle engine (`PaperTradingEngine`) -/

/-- Exit reasons passed to `close_position`. -/
inductive ExitReason
  | stop_loss
  | manual
  | shutdown
deriving DecidableEq, Repr

/-- An open position dictionary. -/
structure Position where
  dir : Dir
  entry_price : ℚ
  adj_entry_price : ℚ
  entry_time : ℕ
  entry_capital : ℚ
  position_size : ℚ
  stop_loss : ℚ
  sl_percentage : ℚ
  trailing_stop_pct : ℚ
  entry_commission : ℚ
deriving DecidableEq, Repr

/-- A completed trade record: the closing-time snapshot of the position
dictionary (`**self.position`) plus the exit fields. -/
structure Trade where
  pos : Position
  exit_price : ℚ
  exit_time : ℕ
  exit_capital : ℚ
  pnl : ℚ
  return_pct : ℚ
  return_multiplier : ℚ
  commission : ℚ
  exit_reason : ExitReason
deriving DecidableEq, Repr

/-- The mutable state of `PaperTradingEngine`. -/
structure Engine where
  initial_capital : ℚ
  slippage : ℚ
  commission : ℚ
  capital : ℚ
  position : Option Position
  equity_history : List (ℕ × ℚ)
  trades : List Trade
  ema_200 : Option ℚ
deriving DecidableEq, Repr

/-- `config.INITIAL_CAPITAL`. -/
def INITIAL_CAPITAL : ℚ := 100

/-- `config.SLIPPAGE` (0.0005). -/
def SLIPPAGE : ℚ := 5 / 10000

/-- `config.COMMISSION` (0.0006). -/
def COMMISSION : ℚ := 6 / 10000

/-- `config.EMA_PERIOD`. -/
def EMA_PERIOD : ℕ := 200

/-- Python's `value or default` for an optional numeric argument: `None` and
`0` (the falsy numbers) both select the default. -/
def orDefault (v : Option ℚ) (d : ℚ) : ℚ :=
  match v with
  | none => d
  | some x => if x = 0 then d else x

/-- `PaperTradingEngine.__init__(initial_capital, slippage, commission)`. -/
def mkEngine (initial_capital slippage commission : Option ℚ) : Engine :=
  { initial_capital := orDefault initial_capital INITIAL_CAPITAL
    slippage := orDefault slippage SLIPPAGE
    commission := orDefault commission COMMISSION
    capital := orDefault initial_capital INITIAL_CAPITAL
    position := none
    equity_history := []
    trades := []
    ema_200 := none }

/-- `get_current_equity(current_price)`: capital when flat or when no price is
supplied; otherwise the mark-to-market value of the open position, net of the
entry commission already paid. -/
def get_current_equity (e : Engine) (current_price : Option ℚ) : ℚ :=
  match e.position with
  | none => e.capital
  | some p =>
    match current_price with
    | none => e.capital
    | some cp =>
      match p.dir with
      | Dir.long => p.entry_capital * ((cp * (1 - e.slippage)) / p.adj_entry_price)
          - p.entry_commission
      | Dir.short => p.entry_capital * (p.adj_entry_price / (cp * (1 + e.slippage)))
          - p.entry_commission

/-- Last value of `Series.ewm(span, adjust=False).mean()`: the recursive
(unadjusted) exponential moving average `y0 = x0`,
`y(t) = (1 - alpha) * y(t-1) + alpha * x(t)` with `alpha = 2 / (span + 1)`. -/
def ewmLast (alpha : ℚ) (l : List ℚ) : Option ℚ :=
  match l with
  | [] => none
  | x :: rest => some (rest.foldl (fun acc v => (1 - alpha) * acc + alpha * v) x)

/-- `calculate_ema_200()`: `None` below 200 equity points, else the span-200
unadjusted EMA over the full equity history. -/
def calculate_ema_200 (e : Engine) : Option ℚ :=
  if e.equity_history.length < 200 then none
  else ewmLast (2 / ((EMA_PERIOD : ℚ) + 1)) (e.equity_history.map Prod.snd)

/-- `should_take_trade()`: stores the freshly computed EMA in `ema_200`;
returns true when the EMA is undefined, else true iff current equity
(`get_current_equity()` with no price, i.e. `capital`) exceeds the EMA. -/
def should_take_trade (e : Engine) : Bool × Engine :=
  let m := calculate_ema_200 e
  let e1 := { e with ema_200 := m }
  match m with
  | none => (true, e1)
  | some v => (decide (v < get_current_equity e1 none), e1)

/-- The accepting path of `open_position`: sizes the position with the full
capital, deducts the entry commission, and installs the position dictionary.
Called only after the stop-loss validation below has passed. -/
def open_fill (e : Engine) (sg : Signal) (adj_entry_price sl_percentage : ℚ) (ts : ℕ) :
    Engine × Option Position :=
  let position_size := e.capital / adj_entry_price
  let entry_commission := position_size * adj_entry_price * e.commission
  let p : Position :=
    { dir := sg.dir
      entry_price := sg.entry_price
      adj_entry_price := adj_entry_price
      entry_time := ts
      entry_capital := e.capital
      position_size := position_size
      stop_loss := sg.stop_loss
      sl_percentage := sl_percentage
      trailing_stop_pct := sl_percentage * (3 / 4)
      entry_commission := entry_commission }
  ({ e with position := some p, capital := e.capital - entry_commission }, some p)

/-- `open_position(signal, timestamp)`: no-op when a position is already open
or when the slippage-adjusted entry does not properly bracket the stop-loss
(long rejects when `adj_entry_price <= stop_loss`, short when
`adj_entry_price >= stop_loss`); otherwise fills via `open_fill`. -/
def open_position (e : Engine) (sg : Signal) (ts : ℕ) : Engine × Option Position :=
  match e.position with
  | some _ => (e, none)
  | none =>
    match sg.dir with
    | Dir.long =>
      let adj := sg.entry_price * (1 + e.slippage)
      if adj ≤ sg.stop_loss then (e, none)
      else open_fill e sg adj ((adj - sg.stop_loss) / adj) ts
    | Dir.short =>
      let adj := sg.entry_price * (1 - e.slippage)
      if sg.stop_loss ≤ adj then (e, none)
      else open_fill e sg adj ((sg.stop_loss - adj) / adj) ts

/-- `close_position(exit_price, timestamp, reason)`: no-op when flat;
otherwise applies exit slippage, computes the return multiplier from the
adjusted prices, rebuilds capital from `entry_capital`, deducts the exit
commission, appends the trade record and clears the position. -/
def close_position (e : Engine) (exit_price : ℚ) (ts : ℕ) (reason : ExitReason) :
    Engine × Option Trade :=
  match e.position with
  | none => (e, none)
  | some p =>
    let adj_exit_price :=
      match p.dir with
      | Dir.long => exit_price * (1 - e.slippage)
      | Dir.short => exit_price * (1 + e.slippage)
    let return_multiplier :=
      match p.dir with
      | Dir.long => adj_exit_price / p.adj_entry_price
      | Dir.short => p.adj_entry_price / adj_exit_price
    let capital_after_slippage := p.entry_capital * return_multiplier
    let exit_commission := p.position_size * adj_exit_price * e.commission
    let total_commission := p.entry_commission + exit_commission
    let final_capital := capital_after_slippage - exit_commission
    let pnl := final_capital - p.entry_capital
    let t : Trade :=
      { pos := p
        exit_price := adj_exit_price
        exit_time := ts
        exit_capital := final_capital
        pnl := pnl
        return_pct := pnl / p.entry_capital * 100
        return_multiplier := return_multiplier
        commission := total_commission
        exit_reason := reason }
    ({ e with capital := final_capital, trades := e.trades ++ [t], position := none }, some t)

/-- `update_position(current_price, timestamp)`: ratchets the trailing stop in
the favorable direction only, then closes at the (possibly just-trailed) stop
price when the stop test fires. -/
def update_position (e : Engine) (current_price : ℚ) (ts : ℕ) : Engine × Option Trade :=
  match e.position with
  | none => (e, none)
  | some p =>
    match p.dir with
    | Dir.long =>
      let trail_price := current_price * (1 - p.trailing_stop_pct)
      let p1 := if p.stop_loss < trail_price then { p with stop_loss := trail_price } else p
      let e1 := { e with position := some p1 }
      if current_price ≤ p1.stop_loss then
        close_position e1 p1.stop_loss ts ExitReason.stop_loss
      else (e1, none)
    | Dir.short =>
      let trail_price := current_price * (1 + p.trailing_stop_pct)
      let p1 := if trail_price < p.stop_loss then { p with stop_loss := trail_price } else p
      let e1 := { e with position := some p1 }
      if p1.stop_loss ≤ current_price then
        close_position e1 p1.stop_loss ts ExitReason.stop_loss
      else (e1, none)

/-- `record_equity(timestamp, current_price)`: appends one equity point. -/
def record_equity (e : Engine) (ts : ℕ) (current_price : Option ℚ) : Engine :=
  { e with equity_history := e.equity_history ++ [(ts, get_current_equity e current_price)] }

/-- Repeated `update_position` calls (engine after each call feeds the next). -/
def run_updates (e : Engine) : List (ℚ × ℕ) → Engine
  | [] => e
  | (cp, ts) :: rest => run_updates (update_position e cp ts).1 rest

/-! ### Concrete fixtures for witnesses and counterexamples -/

/-- A flat engine with zero slippage and zero commission and capital 100
(as in the module self-test, but with the costs switched off). -/
def e_z : Engine :=
  { initial_capital := 100, slippage := 0, commission := 0, capital := 100,
    position := none, equity_history := [], trades := [], ema_200 := none }

/-- A sample open long position (entry 100, stop 95). -/
def p0 : Position :=
  { dir := Dir.long, entry_price := 100, adj_entry_price := 100, entry_time := 0,
    entry_capital := 100, position_size := 1, stop_loss := 95, sl_percentage := 1 / 20,
    trailing_stop_pct := 3 / 80, entry_commission := 0 }

/-- The flat engine with `p0` installed. -/
def e_open : Engine := { e_z with position := some p0 }

/-! ### Claim theorems: position lifecycle -/

/-- Claim C9: constructing `PaperTradingEngine` with an explicit 0 for
initial capital, slippage or commission silently substitutes the configured
defaults (100, 0.0005, 0.0006) because of the `or`-fallback, exactly as
passing `None` does; in particular a zero-slippage or zero-commission engine
cannot be obtained through the constructor. -/
theorem mkEngine_zero_args_use_defaults :
    mkEngine (some 0) (some 0) (some 0) = mkEngine none none none ∧
    (mkEngine (some 0) (some 0) (some 0)).initial_capital = 100 ∧
    (mkEngine (some 0) (some 0) (some 0)).slippage = 5 / 10000 ∧
    (mkEngine (some 0) (some 0) (some 0)).commission = 6 / 10000 ∧
    (mkEngine (some 0) (some 0) (some 0)).slippage ≠ 0 ∧
    (mkEngine (some 0) (some 0) (some 0)).commission ≠ 0 := by
  refine ⟨rfl, rfl, rfl, rfl, ?_, ?_⟩ <;>
    norm_num [mkEngine, orDefault, SLIPPAGE, COMMISSION]

/-- Claim C6: every rejected lifecycle operation is a no-op returning `none`
with the engine record (capital, position, trade ledger, equity history)
unchanged: opening while a position is open, opening on a degenerate signal
whose slippage-adjusted entry does not properly bracket the stop-loss, and
closing while flat. -/
theorem rejected_ops_are_noops (e : Engine) (sg : Signal) (ts : ℕ) :
    (∀ p, e.position = some p → open_position e sg ts = (e, none)) ∧
    (e.position = none → sg.dir = Dir.long →
      sg.entry_price * (1 + e.slippage) ≤ sg.stop_loss → open_position e sg ts = (e, none)) ∧
    (e.position = none → sg.dir = Dir.short →
      sg.stop_loss ≤ sg.entry_price * (1 - e.slippage) → open_position e sg ts = (e, none)) ∧
    (e.position = none → ∀ x r, close_position e x ts r = (e, none)) := by
  refine ⟨?_, ?_, ?_, ?_⟩
  · intro p hp
    unfold open_position
    rw [hp]
  · intro hf hd hle
    simp only [open_position, hf, hd]
    rw [if_pos hle]
  · intro hf hd hle
    simp only [open_position, hf, hd]
    rw [if_pos hle]
  · intro hf x r
    unfold close_position
    rw [hf]

/-- Witness for C6 at concrete inputs: opening over `p0` is rejected, a
degenerate long (entry 100, stop 200) and a degenerate short (entry 100,
stop 50) are rejected on the flat zero-cost engine, and closing the flat
engine is rejected; each time the engine is returned unchanged. -/
theorem rejected_ops_are_noops_witness :
    open_position e_open ⟨Dir.long, 100, 95, 0, 0⟩ 0 = (e_open, none) ∧
    open_position e_z ⟨Dir.long, 100, 200, 0, 0⟩ 0 = (e_z, none) ∧
    open_position e_z ⟨Dir.short, 100, 50, 0, 0⟩ 0 = (e_z, none) ∧
    close_position e_z 100 0 ExitReason.manual = (e_z, none) :=
  ⟨(rejected_ops_are_noops e_open ⟨Dir.long, 100, 95, 0, 0⟩ 0).1 p0 rfl,
   (rejected_ops_are_noops e_z ⟨Dir.long, 100, 200, 0, 0⟩ 0).2.1 rfl rfl (by norm_num [e_z]),
   (rejected_ops_are_noops e_z ⟨Dir.short, 100, 50, 0, 0⟩ 0).2.2.1 rfl rfl (by norm_num [e_z]),
   (rejected_ops_are_noops e_z ⟨Dir.long, 100, 95, 0, 0⟩ 0).2.2.2 rfl 100 ExitReason.manual⟩

/-- Claim C8: `close_position` rebuilds capital from `entry_capital` — the
capital recorded before the entry commission was deducted: the post-close
capital is `entry_capital * return_multiplier - exit_commission`, with no
entry-commission term, while the emitted trade's `commission` field is the
sum of entry and exit commissions; and `open_position` records
`entry_capital` as the pre-commission capital while deducting the entry
commission from the live capital. -/
theorem close_capital_ignores_entry_commission (e : Engine) (sg : Signal) (ts : ℕ) :
    (e.position = none → ∀ e1 p, open_position e sg ts = (e1, some p) →
       p.entry_capital = e.capital ∧ e1.capital = e.capital - p.entry_commission) ∧
    (∀ p, e.position = some p → ∀ X ts2 r e2 t, close_position e X ts2 r = (e2, some t) →
       e2.capital = p.entry_capital * t.return_multiplier -
         p.position_size * t.exit_price * e.commission ∧
       t.commission = p.entry_commission + p.position_size * t.exit_price * e.commission) := by
  constructor
  · intro hf e1 p h
    cases hd : sg.dir with
    | long =>
        simp only [open_position, hf, hd] at h
        by_cases hv : sg.entry_price * (1 + e.slippage) ≤ sg.stop_loss
        · rw [if_pos hv] at h
          simp only [Prod.mk.injEq] at h
          exact absurd h.2 (by simp)
        · rw [if_neg hv] at h
          simp only [open_fill, Prod.mk.injEq, Option.some.injEq] at h
          obtain ⟨he1, hp⟩ := h
          subst he1; subst hp
          exact ⟨rfl, rfl⟩
    | short =>
        simp only [open_position, hf, hd] at h
        by_cases hv : sg.stop_loss ≤ sg.entry_price * (1 - e.slippage)
        · rw [if_pos hv] at h
          simp only [Prod.mk.injEq] at h
          exact absurd h.2 (by simp)
        · rw [if_neg hv] at h
          simp only [open_fill, Prod.mk.injEq, Option.some.injEq] at h
          obtain ⟨he1, hp⟩ := h
          subst he1; subst hp
          exact ⟨rfl, rfl⟩
  · intro p hp X ts2 r e2 t h
    simp only [close_position, hp] at h
    cases hd : p.dir with
    | long =>
        simp only [hd, Prod.mk.injEq, Option.some.injEq] at h
        obtain ⟨he2, ht⟩ := h
        subst he2; subst ht
        exact ⟨rfl, rfl⟩
    | short =>
        simp only [hd, Prod.mk.injEq, Option.some.injEq] at h
        obtain ⟨he2, ht⟩ := h
        subst he2; subst ht
        exact ⟨rfl, rfl⟩

/-- Claim C10: when the stop test fires inside `update_position`
(long: price at or below the stop, short: price at or above it), the exit
price handed to `close_position` is the current — possibly just-trailed on
the same call — stop-loss value itself, not the market price, so the
emitted trade's exit price is that stop value adjusted for exit slippage. -/
theorem stop_exit_uses_stop_price (e : Engine) (p : Position) (cp : ℚ) (ts : ℕ)
    (hp : e.position = some p) :
    (p.dir = Dir.long →
      ∀ ns, ns = (if p.stop_loss < cp * (1 - p.trailing_stop_pct)
                  then cp * (1 - p.trailing_stop_pct) else p.stop_loss) →
      cp ≤ ns →
      ∃ t, (update_position e cp ts).2 = some t ∧
        t.exit_price = ns * (1 - e.slippage) ∧
        t.exit_reason = ExitReason.stop_loss ∧
        t.pos.stop_loss = ns) ∧
    (p.dir = Dir.short →
      ∀ ns, ns = (if cp * (1 + p.trailing_stop_pct) < p.stop_loss
                  then cp * (1 + p.trailing_stop_pct) else p.stop_loss) →
      ns ≤ cp →
      ∃ t, (update_position e cp ts).2 = some t ∧
        t.exit_price = ns * (1 + e.slippage) ∧
        t.exit_reason = ExitReason.stop_loss ∧
        t.pos.stop_loss = ns) := by
  constructor
  · intro hd ns hns hhit
    simp only [update_position, hp, hd]
    by_cases htr : p.stop_loss < cp * (1 - p.trailing_stop_pct)
    · rw [if_pos htr] at hns
      subst hns
      rw [if_pos htr, if_pos hhit]
      simp only [close_position, hd]
      exact ⟨_, rfl, rfl, rfl, rfl⟩
    · rw [if_neg htr] at hns
      subst hns
      rw [if_neg htr, if_pos hhit]
      simp only [close_position, hd]
      exact ⟨_, rfl, rfl, rfl, rfl⟩
  · intro hd ns hns hhit
    simp only [update_position, hp, hd]
    by_cases htr : cp * (1 + p.trailing_stop_pct) < p.stop_loss
    · rw [if_pos htr] at hns
      subst hns
      rw [if_pos htr, if_pos hhit]
      simp only [close_position, hd]
      exact ⟨_, rfl, rfl, rfl, rfl⟩
    · rw [if_neg htr] at hns
      subst hns
      rw [if_neg htr, if_pos hhit]
      simp only [close_position, hd]
      exact ⟨_, rfl, rfl, rfl, rfl⟩

/-- Witness for C10: on `e_open` (long, stop 95, trailing fraction 3/80) a
price of 90 trails nothing and fires the stop: the trade exits at the stop
price 95 (slippage 0), not at the market price 90. -/
theorem stop_exit_uses_stop_price_witness :
    (p0.dir = Dir.long) ∧
    ((95 : ℚ) = (if p0.stop_loss < 90 * (1 - p0.trailing_stop_pct)
                 then 90 * (1 - p0.trailing_stop_pct) else p0.stop_loss)) ∧
    ((90 : ℚ) ≤ 95) ∧
    (∃ t, (update_position e_open 90 0).2 = some t ∧
      t.exit_price = 95 * (1 - e_open.slippage) ∧
      t.exit_reason = ExitReason.stop_loss ∧
      t.pos.stop_loss = 95) :=
  ⟨rfl, by rw [if_neg (by norm_num [p0])]; norm_num [p0], by norm_num,
   (stop_exit_uses_stop_price e_open p0 90 0 rfl).1 rfl 95
     (by rw [if_neg (by norm_num [p0])]; norm_num [p0]) (by norm_num [p0])⟩

/-- Claim C3 (amended): with zero slippage and zero commission, a round trip
at entry `E` with capital `C` sizes the position as `C / E`; closing at `X`
realizes P&L `C * (X / E - 1)` for long — but for short the code computes the
return multiplier as `adjEntry / adjExit`, so the realized P&L is
`C * (E / X - 1)`, not `C * (1 - X / E)`.  The long concrete example of the
claim (entry 3000, stop 2950, capital 100, close 3050) follows by
instantiation. -/
theorem round_trip_pnl (e0 : Engine) (C E X SL : ℚ) (ts1 ts2 tsx ob : ℕ)
    (hsl : e0.slippage = 0) (hcom : e0.commission = 0) (hflat : e0.position = none)
    (hcap : e0.capital = C) :
    (SL < E →
      ((open_position e0 ⟨Dir.long, E, SL, tsx, ob⟩ ts1).2.map Position.position_size
          = some (C / E)) ∧
      ((close_position (open_position e0 ⟨Dir.long, E, SL, tsx, ob⟩ ts1).1 X ts2
          ExitReason.manual).2.map Trade.pnl = some (C * (X / E - 1))) ∧
      ((close_position (open_position e0 ⟨Dir.long, E, SL, tsx, ob⟩ ts1).1 X ts2
          ExitReason.manual).1.capital = C * (X / E))) ∧
    (E < SL →
      ((open_position e0 ⟨Dir.short, E, SL, tsx, ob⟩ ts1).2.map Position.position_size
          = some (C / E)) ∧
      ((close_position (open_position e0 ⟨Dir.short, E, SL, tsx, ob⟩ ts1).1 X ts2
          ExitReason.manual).2.map Trade.pnl = some (C * (E / X - 1))) ∧
      ((close_position (open_position e0 ⟨Dir.short, E, SL, tsx, ob⟩ ts1).1 X ts2
          ExitReason.manual).1.capital = C * (E / X))) := by
  constructor
  · intro hlt
    have hv : ¬ (E * (1 + e0.slippage) ≤ SL) := by rw [hsl]; simpa using hlt
    simp only [open_position, hflat]
    rw [if_neg hv]
    simp only [open_fill, close_position, Option.map_some]
    refine ⟨?_, ?_, ?_⟩
    · rw [hcap, hsl]; norm_num
    · rw [hcap, hsl, hcom]
      field_simp
      ring
    · rw [hcap, hsl, hcom]
      field_simp
  · intro hlt
    have hv : ¬ (SL ≤ E * (1 - e0.slippage)) := by rw [hsl]; simpa using hlt
    simp only [open_position, hflat]
    rw [if_neg hv]
    simp only [open_fill, close_position, Option.map_some]
    refine ⟨?_, ?_, ?_⟩
    · rw [hcap, hsl]; norm_num
    · rw [hcap, hsl, hcom]
      field_simp
      ring
    · rw [hcap, hsl, hcom]
      field_simp

/-- Claim C3 counterexample: on the zero-cost engine, a short round trip
opened at entry 100 (stop 110) and closed at 50 realizes P&L 100 (the short
return multiplier is `entry/exit = 2`), while the claimed short formula
`C * (1 - X / E)` evaluates to 50. -/
theorem short_round_trip_pnl_counterexample :
    ((close_position (open_position e_z ⟨Dir.short, 100, 110, 0, 0⟩ 0).1 50 1
        ExitReason.manual).2.map Trade.pnl = some 100) ∧
    ((100 : ℚ) * (1 - 50 / 100) = 50) ∧
    ¬ ((close_position (open_position e_z ⟨Dir.short, 100, 110, 0, 0⟩ 0).1 50 1
        ExitReason.manual).2.map Trade.pnl = some ((100 : ℚ) * (1 - 50 / 100))) := by
  have h := (round_trip_pnl e_z 100 100 50 110 0 1 0 0 rfl rfl rfl rfl).2 (by norm_num)
  have hval : ((100 : ℚ) * (100 / 50 - 1)) = 100 := by norm_num
  have hpnl := h.2.1
  rw [hval] at hpnl
  refine ⟨hpnl, by norm_num, ?_⟩
  rw [hpnl]
  simp only [Option.some.injEq]
  norm_num

/-- Witness for C3: the long round trip of the claim's concrete example on
the zero-cost engine: entry 3000, stop 2950, capital 100, closed at 3050 —
size `100/3000`, P&L `100 * (3050/3000 - 1)`, final capital
`100 * 3050/3000`. -/
theorem round_trip_pnl_witness :
    ((2950 : ℚ) < 3000) ∧
    ((open_position e_z ⟨Dir.long, 3000, 2950, 0, 0⟩ 0).2.map Position.position_size
        = some ((100 : ℚ) / 3000)) ∧
    ((close_position (open_position e_z ⟨Dir.long, 3000, 2950, 0, 0⟩ 0).1 3050 1
        ExitReason.manual).2.map Trade.pnl = some ((100 : ℚ) * (3050 / 3000 - 1))) ∧
    ((close_position (open_position e_z ⟨Dir.long, 3000, 2950, 0, 0⟩ 0).1 3050 1
        ExitReason.manual).1.capital = (100 : ℚ) * (3050 / 3000)) := by
  have h := (round_trip_pnl e_z 100 3000 3050 2950 0 1 0 0 rfl rfl rfl rfl).1 (by norm_num)
  exact ⟨by norm_num, h.1, h.2.1, h.2.2⟩

/-! ### Trailing stop monotonicity -/

theorem update_flat (e : Engine) (cp : ℚ) (ts : ℕ) (hf : e.position = none) :
    update_position e cp ts = (e, none) := by
  unfold update_position; rw [hf]

theorem run_updates_flat (ps : List (ℚ × ℕ)) (e : Engine) (hf : e.position = none) :
    (run_updates e ps).position = none := by
  induction ps generalizing e with
  | nil => exact hf
  | cons a rest ih =>
      obtain ⟨cp, ts⟩ := a
      rw [run_updates, update_flat e cp ts hf]
      exact ih e hf

theorem update_step (e : Engine) (p : Position) (cp : ℚ) (ts : ℕ) (hp : e.position = some p) :
    (update_position e cp ts).1.position = none ∨
    ∃ p1, (update_position e cp ts).1.position = some p1 ∧ p1.dir = p.dir ∧
      (p.dir = Dir.long → p.stop_loss ≤ p1.stop_loss) ∧
      (p.dir = Dir.short → p1.stop_loss ≤ p.stop_loss) := by
  cases hd : p.dir with
  | long =>
      simp only [update_position, hp, hd]
      by_cases htr : p.stop_loss < cp * (1 - p.trailing_stop_pct)
      · simp only [if_pos htr]
        by_cases hhit : cp ≤ cp * (1 - p.trailing_stop_pct)
        · rw [if_pos hhit]
          exact Or.inl (by simp [close_position])
        · rw [if_neg hhit]
          exact Or.inr ⟨_, rfl, rfl, fun _ => le_of_lt htr,
            fun hds => absurd hds (by decide)⟩
      · simp only [if_neg htr]
        by_cases hhit : cp ≤ p.stop_loss
        · rw [if_pos hhit]
          exact Or.inl (by simp [close_position])
        · rw [if_neg hhit]
          exact Or.inr ⟨p, rfl, hd, fun _ => le_refl _,
            fun hds => absurd hds (by decide)⟩
  | short =>
      simp only [update_position, hp, hd]
      by_cases htr : cp * (1 + p.trailing_stop_pct) < p.stop_loss
      · simp only [if_pos htr]
        by_cases hhit : cp * (1 + p.trailing_stop_pct) ≤ cp
        · rw [if_pos hhit]
          exact Or.inl (by simp [close_position])
        · rw [if_neg hhit]
          exact Or.inr ⟨_, rfl, rfl,
            fun hds => absurd hds (by decide), fun _ => le_of_lt htr⟩
      · simp only [if_neg htr]
        by_cases hhit : p.stop_loss ≤ cp
        · rw [if_pos hhit]
          exact Or.inl (by simp [close_position])
        · rw [if_neg hhit]
          exact Or.inr ⟨p, rfl, hd,
            fun hds => absurd hds (by decide), fun _ => le_refl _⟩

theorem run_updates_stop_mono (ps : List (ℚ × ℕ)) :
    ∀ e p q, e.position = some p → (run_updates e ps).position = some q →
      q.dir = p.dir ∧
      (p.dir = Dir.long → p.stop_loss ≤ q.stop_loss) ∧
      (p.dir = Dir.short → q.stop_loss ≤ p.stop_loss) := by
  induction ps with
  | nil =>
      intro e p q hp hq
      rw [run_updates] at hq
      rw [hp] at hq
      obtain rfl : p = q := Option.some.inj hq
      exact ⟨rfl, fun _ => le_refl _, fun _ => le_refl _⟩
  | cons a rest ih =>
      intro e p q hp hq
      obtain ⟨cp, ts⟩ := a
      rw [run_updates] at hq
      rcases update_step e p cp ts hp with hnone | ⟨p1, hp1, hdir, hlong, hshort⟩
      · rw [run_updates_flat rest _ hnone] at hq
        cases hq
      · obtain ⟨hdq, hl, hs⟩ := ih _ p1 q hp1 hq
        refine ⟨hdq.trans hdir, ?_, ?_⟩
        · intro hd
          exact le_trans (hlong hd) (hl (by rw [hdir, hd]))
        · intro hd
          exact le_trans (hs (by rw [hdir, hd])) (hshort hd)

/-- Claim C4: the trailing stop ratchets only in the favorable direction.
A single `update_position` call that does not close the position replaces
the stop with `currentPrice * (1 - trailing fraction)` (long) exactly when
that candidate strictly exceeds the existing stop, and never lowers it; and
across any sequence of `update_position` calls after which the position is
still open, the stop-loss of a long position is non-decreasing and the
stop-loss of a short position is non-increasing. -/
theorem trailing_stop_monotone (e : Engine) (p : Position) (hp : e.position = some p) :
    (∀ cp ts p1, (update_position e cp ts).1.position = some p1 →
       p1.dir = p.dir ∧
       (p.dir = Dir.long →
         p1.stop_loss = (if p.stop_loss < cp * (1 - p.trailing_stop_pct)
                         then cp * (1 - p.trailing_stop_pct) else p.stop_loss) ∧
         p.stop_loss ≤ p1.stop_loss) ∧
       (p.dir = Dir.short →
         p1.stop_loss = (if cp * (1 + p.trailing_stop_pct) < p.stop_loss
                         then cp * (1 + p.trailing_stop_pct) else p.stop_loss) ∧
         p1.stop_loss ≤ p.stop_loss)) ∧
    (∀ ps q, (run_updates e ps).position = some q →
       (p.dir = Dir.long → p.stop_loss ≤ q.stop_loss) ∧
       (p.dir = Dir.short → q.stop_loss ≤ p.stop_loss)) := by
  constructor
  · intro cp ts p1 h1
    cases hd : p.dir with
    | long =>
        simp only [update_position, hp, hd] at h1
        by_cases htr : p.stop_loss < cp * (1 - p.trailing_stop_pct)
        · simp only [if_pos htr] at h1
          by_cases hhit : cp ≤ cp * (1 - p.trailing_stop_pct)
          · simp only [if_pos hhit, close_position, hd] at h1
            cases h1
          · simp only [if_neg hhit] at h1
            obtain rfl := Option.some.inj h1
            refine ⟨rfl, fun _ => ⟨by rw [if_pos htr], le_of_lt htr⟩,
              fun hds => absurd hds (by decide)⟩
        · simp only [if_neg htr] at h1
          by_cases hhit : cp ≤ p.stop_loss
          · simp only [if_pos hhit, close_position, hd] at h1
            cases h1
          · simp only [if_neg hhit] at h1
            obtain rfl := Option.some.inj h1
            refine ⟨hd, fun _ => ⟨by rw [if_neg htr], le_refl _⟩,
              fun hds => absurd hds (by decide)⟩
    | short =>
        simp only [update_position, hp, hd] at h1
        by_cases htr : cp * (1 + p.trailing_stop_pct) < p.stop_loss
        · simp only [if_pos htr] at h1
          by_cases hhit : cp * (1 + p.trailing_stop_pct) ≤ cp
          · simp only [if_pos hhit, close_position, hd] at h1
            cases h1
          · simp only [if_neg hhit] at h1
            obtain rfl := Option.some.inj h1
            refine ⟨rfl, fun hds => absurd hds (by decide),
              fun _ => ⟨by rw [if_pos htr], le_of_lt htr⟩⟩
        · simp only [if_neg htr] at h1
          by_cases hhit : p.stop_loss ≤ cp
          · simp only [if_pos hhit, close_position, hd] at h1
            cases h1
          · simp only [if_neg hhit] at h1
            obtain rfl := Option.some.inj h1
            refine ⟨hd, fun hds => absurd hds (by decide),
              fun _ => ⟨by rw [if_neg htr], le_refl _⟩⟩
  · intro ps q hq
    exact (run_updates_stop_mono ps e p q hp hq).2

/-- Witness for C4: on `e_open` (long from 100, stop 95), two updates at
prices 104 then 102 leave the position open and the stop has ratcheted up
(from 95 to `104 * (1 - 3/80) = 100.1`), never down. -/
theorem trailing_stop_monotone_witness :
    (∃ q, (run_updates e_open [(104, 1), (102, 2)]).position = some q ∧
       p0.stop_loss ≤ q.stop_loss) := by
  have h104 : ¬ ((104 : ℚ) ≤ 104 * (1 - p0.trailing_stop_pct)) := by norm_num [p0]
  have htr104 : p0.stop_loss < 104 * (1 - p0.trailing_stop_pct) := by norm_num [p0]
  have h1 : update_position e_open 104 1 =
      ({ e_open with position := some { p0 with stop_loss := 104 * (1 - p0.trailing_stop_pct) } },
        none) := by
    simp only [update_position, e_open, p0]
    norm_num
  have hq : (run_updates e_open [(104, 1), (102, 2)]).position =
      some { p0 with stop_loss := 104 * (1 - p0.trailing_stop_pct) } := by
    rw [run_updates, h1, run_updates]
    have h2 : update_position
        { e_open with position := some { p0 with stop_loss := 104 * (1 - p0.trailing_stop_pct) } }
        102 2 =
        ({ e_open with position := some { p0 with stop_loss := 104 * (1 - p0.trailing_stop_pct) } },
          none) := by
      simp only [update_position, p0]
      norm_num
    rw [h2, run_updates]
  refine ⟨_, hq, ?_⟩
  have := (trailing_stop_monotone e_open p0 rfl).2 [(104, 1), (102, 2)] _ hq
  exact this.1 rfl

/-- Witness for C8: opening long (entry 100, stop 95) on the zero-cost flat
engine records `entry_capital = 100` and then closing at 98 rebuilds capital
from it. -/
theorem close_capital_ignores_entry_commission_witness :
    (∃ e1 p, open_position e_z ⟨Dir.long, 100, 95, 0, 0⟩ 0 = (e1, some p) ∧
       p.entry_capital = e_z.capital ∧ e1.capital = e_z.capital - p.entry_commission) ∧
    (∃ e2 t, close_position e_open 98 1 ExitReason.manual = (e2, some t) ∧
       e2.capital = p0.entry_capital * t.return_multiplier -
         p0.position_size * t.exit_price * e_open.commission ∧
       t.commission = p0.entry_commission + p0.position_size * t.exit_price * e_open.commission) := by
  constructor
  · have hsucc : (open_position e_z ⟨Dir.long, 100, 95, 0, 0⟩ 0).2.isSome = true := by
      simp only [open_position, open_fill, e_z]
      rw [if_neg (by norm_num)]
      rfl
    obtain ⟨p, hp⟩ := Option.isSome_iff_exists.mp hsucc
    have heq : open_position e_z ⟨Dir.long, 100, 95, 0, 0⟩ 0 =
        ((open_position e_z ⟨Dir.long, 100, 95, 0, 0⟩ 0).1, some p) := by
      rw [← hp]
    exact ⟨_, p, heq,
      (close_capital_ignores_entry_commission e_z ⟨Dir.long, 100, 95, 0, 0⟩ 0).1 rfl _ p heq⟩
  · obtain ⟨e2, t, heq⟩ : ∃ e2 t, close_position e_open 98 1 ExitReason.manual = (e2, some t) :=
      ⟨_, _, rfl⟩
    exact ⟨e2, t, heq,
      (close_capital_ignores_entry_commission e_open ⟨Dir.long, 100, 95, 0, 0⟩ 0).2 p0 rfl
        98 1 ExitReason.manual e2 t heq⟩

/-! ### Equity regime filter -/

theorem ema_const_fold (n : ℕ) (a x : ℚ) :
    List.foldl (fun acc v => (1 - a) * acc + a * v) x (List.replicate n x) = x := by
  induction n with
  | zero => rfl
  | succ n ih =>
      rw [List.replicate_succ, List.foldl_cons, show (1 - a) * x + a * x = x by ring]
      exact ih

/-- Claim C5: `calculate_ema_200` returns `none` while the equity history
holds fewer than 200 points; from 200 points on it returns (is defined) the
unadjusted recursive EMA with span 200 (`alpha = 2/201`, `y0 = x0`,
`y(t) = (1-alpha)*y(t-1) + alpha*x(t)`, proved here as the snoc recursion of
`ewmLast`) over the entire equity history; `should_take_trade` returns true
unconditionally while the EMA is undefined, and once defined returns true
iff current equity (capital) strictly exceeds the EMA. -/
theorem ema_gate_spec (e : Engine) :
    (e.equity_history.length < 200 → calculate_ema_200 e = none) ∧
    (200 ≤ e.equity_history.length →
       calculate_ema_200 e = ewmLast (2 / 201) (e.equity_history.map Prod.snd) ∧
       (calculate_ema_200 e).isSome = true) ∧
    (∀ l x, ewmLast (2 / 201) (l ++ [x]) =
       some (match ewmLast (2 / 201) l with
             | none => x
             | some m => (1 - 2 / 201) * m + (2 / 201) * x)) ∧
    (calculate_ema_200 e = none → (should_take_trade e).1 = true) ∧
    (∀ m, calculate_ema_200 e = some m →
       ((should_take_trade e).1 = true ↔ m < e.capital)) := by
  have halpha : (2 : ℚ) / ((EMA_PERIOD : ℚ) + 1) = 2 / 201 := by norm_num [EMA_PERIOD]
  refine ⟨?_, ?_, ?_, ?_, ?_⟩
  · intro hlen
    unfold calculate_ema_200
    rw [if_pos hlen]
  · intro hlen
    constructor
    · unfold calculate_ema_200
      rw [if_neg (by omega), halpha]
    · unfold calculate_ema_200
      rw [if_neg (by omega)]
      cases hh : e.equity_history with
      | nil => rw [hh] at hlen; simp at hlen
      | cons a t => simp [ewmLast]
  · intro l x
    cases l with
    | nil => rfl
    | cons a rest =>
        simp only [List.cons_append, ewmLast, List.foldl_append, List.foldl_cons,
          List.foldl_nil]
  · intro hnone
    simp only [should_take_trade, hnone]
  · intro m hm
    have hge : get_current_equity { e with ema_200 := some m } none = e.capital := by
      unfold get_current_equity
      cases hpos : e.position with
      | none => simp [hpos]
      | some p => simp [hpos]
    simp only [should_take_trade, hm, hge]
    simp [decide_eq_true_eq]

/-- An engine with exactly 200 recorded equity points, all equal to 100,
and current capital 101. -/
def e200 : Engine :=
  { initial_capital := 100, slippage := 0, commission := 0, capital := 101,
    position := none, equity_history := (List.range 200).map (fun k => (k, 100)),
    trades := [], ema_200 := none }

theorem calculate_ema_200_e200 : calculate_ema_200 e200 = some 100 := by
  have hmap : (e200.equity_history.map Prod.snd) = List.replicate 200 (100 : ℚ) := by
    simp only [e200, List.map_map]
    have : (Prod.snd ∘ fun k => ((k : ℕ), (100 : ℚ))) = fun _ => (100 : ℚ) := rfl
    rw [this]
    simp [List.map_const']
  unfold calculate_ema_200
  rw [if_neg (by simp [e200])]
  rw [hmap, show (200 : ℕ) = 199 + 1 from rfl, List.replicate_succ]
  simp only [ewmLast]
  rw [ema_const_fold]

/-- Witness for C5: on `e200` (200 flat equity points at 100, capital 101)
the EMA is defined, equals the recursive EMA over the recorded history
(concretely 100), and the gate compares capital against it. -/
theorem ema_gate_spec_witness :
    (200 ≤ e200.equity_history.length ∧
      calculate_ema_200 e200 = ewmLast (2 / 201) (e200.equity_history.map Prod.snd)) ∧
    calculate_ema_200 e200 = some 100 ∧
    ((should_take_trade e200).1 = true ↔ (100 : ℚ) < e200.capital) :=
  ⟨⟨by simp [e200], ((ema_gate_spec e200).2.1 (by simp [e200])).1⟩,
   calculate_ema_200_e200,
   (ema_gate_spec e200).2.2.2.2 100 calculate_ema_200_e200⟩

/-! ### Expanding ATR baseline (claim C7) -/

theorem tr_isSome (df : List Candle) (j : ℕ) :
    (tr df j).isSome = true ↔ 1 ≤ j ∧ j < df.length := by
  unfold tr
  by_cases h : 1 ≤ j ∧ j < df.length
  · rw [if_pos h, List.getElem?_eq_getElem h.2,
      List.getElem?_eq_getElem (show j - 1 < df.length by omega)]
    simp [h]
  · rw [if_neg h]
    simp [h]

theorem isSome_map {α β : Type} (f : α → β) (o : Option α) :
    (o.map f).isSome = o.isSome := by
  cases o <;> rfl

theorem seqOpt_isSome (l : List (Option ℚ)) :
    (seqOpt l).isSome = true ↔ ∀ o ∈ l, o.isSome = true := by
  induction l with
  | nil => simp [seqOpt]
  | cons o rest ih =>
      cases o with
      | none =>
          simp only [seqOpt, Option.isSome_none, Bool.false_eq_true, false_iff]
          intro hall
          simpa using hall none (List.mem_cons_self _ _)
      | some v =>
          simp only [seqOpt, isSome_map]
          rw [ih]
          constructor
          · intro hall o ho
            rcases List.mem_cons.mp ho with rfl | hmem
            · rfl
            · exact hall o hmem
          · intro hall o ho
            exact hall o (List.mem_cons_of_mem _ ho)

theorem atr_isSome (df : List Candle) (j : ℕ) :
    (atr df j).isSome = true ↔ 15 ≤ j ∧ j < df.length := by
  unfold atr
  by_cases h : 14 ≤ j ∧ j < df.length
  · rw [if_pos h, isSome_map, seqOpt_isSome]
    constructor
    · intro hall
      refine ⟨?_, h.2⟩
      by_contra hlt
      have h14 : j = 14 := by omega
      have hmem : tr df (j - 14 + 0) ∈
          (List.range 14).map (fun k => tr df (j - 14 + k)) :=
        List.mem_map_of_mem _ (List.mem_range.mpr (by norm_num))
      have := hall _ hmem
      rw [tr_isSome] at this
      omega
    · intro hj o ho
      obtain ⟨k, hk, rfl⟩ := List.mem_map.mp ho
      rw [List.mem_range] at hk
      rw [tr_isSome]
      omega
  · rw [if_neg h]
    simp only [Option.isSome_none, Bool.false_eq_true, false_iff]
    omega

theorem filterMap_atr_length (df : List Candle) (n : ℕ) (hn : n ≤ df.length) :
    ((List.range n).filterMap (atr df)).length = n - 15 := by
  induction n with
  | zero => rfl
  | succ n ih =>
      rw [List.range_succ, List.filterMap_append, List.length_append, ih (by omega)]
      cases hsome : atr df n with
      | none =>
          have hno : ¬ (15 ≤ n ∧ n < df.length) := by
            rw [← atr_isSome df n, hsome]
            simp
          have hnlt : n < df.length := by omega
          simp only [List.filterMap_cons, hsome, List.filterMap_nil, List.length_nil]
          omega
      | some v =>
          have hyes : 15 ≤ n ∧ n < df.length := by
            rw [← atr_isSome df n, hsome]
            rfl
          simp only [List.filterMap_cons, hsome, List.filterMap_nil, List.length_cons,
            List.length_nil]
          omega

/-- Claim C7: the expanding ATR baseline at a row `i` of the frame is
defined exactly when at least 2 ATR values exist among rows `≤ i`, and when
defined it equals the mean of the ATR values at rows strictly before `i`. -/
theorem expanding_avg_atr_spec (df : List Candle) (i : ℕ) (h : i < df.length) :
    ((expanding_avg_atr df i).isSome = true ↔
       2 ≤ ((List.range (i + 1)).filterMap (atr df)).length) ∧
    (∀ m, expanding_avg_atr df i = some m →
       m = mean ((List.range i).filterMap (atr df))) := by
  have hlen_i : ((List.range i).filterMap (atr df)).length = i - 15 :=
    filterMap_atr_length df i (by omega)
  have hlen_i1 : ((List.range (i + 1)).filterMap (atr df)).length = (i + 1) - 15 :=
    filterMap_atr_length df (i + 1) (by omega)
  constructor
  · rw [hlen_i1]
    unfold expanding_avg_atr
    by_cases h1 : 1 ≤ i
    · rw [if_pos ⟨h1, h⟩]
      by_cases hem : (List.range i).filterMap (atr df) = []
      · rw [if_pos hem]
        have hz : i - 15 = 0 := by rw [← hlen_i, hem]; rfl
        simp only [Option.isSome_none, Bool.false_eq_true, false_iff]
        omega
      · rw [if_neg hem]
        have hnz : ((List.range i).filterMap (atr df)).length ≠ 0 := by
          simpa [List.length_eq_zero] using hem
        rw [hlen_i] at hnz
        simp only [Option.isSome_some, true_iff]
        omega
    · rw [if_neg (by omega)]
      simp only [Option.isSome_none, Bool.false_eq_true, false_iff]
      omega
  · intro m hm
    unfold expanding_avg_atr at hm
    by_cases h1 : 1 ≤ i
    · rw [if_pos ⟨h1, h⟩] at hm
      by_cases hem : (List.range i).filterMap (atr df) = []
      · rw [if_pos hem] at hm; cases hm
      · rw [if_neg hem] at hm
        exact (Option.some.inj hm).symm
    · rw [if_neg (by omega)] at hm; cases hm

/-- Witness for C7 on a concrete 17-candle frame at row 16 (the first row
at which two ATR values exist). -/
theorem expanding_avg_atr_spec_witness :
    (16 < (List.replicate 17 c0).length) ∧
    (((expanding_avg_atr (List.replicate 17 c0) 16).isSome = true ↔
       2 ≤ ((List.range 17).filterMap (atr (List.replicate 17 c0))).length) ∧
     (∀ m, expanding_avg_atr (List.replicate 17 c0) 16 = some m →
       m = mean ((List.range 16).filterMap (atr (List.replicate 17 c0))))) :=
  ⟨by decide, expanding_avg_atr_spec (List.replicate 17 c0) 16 (by decide)⟩

/-! ### Order-block scan (claim C2) -/

theorem obScanLong_eq_some (df : List Candle) (cur : ℚ) (l : List ℕ) (j : ℕ) (v : ℚ)
    (h : obScanLong df cur l = some (j, v)) :
    j ∈ l ∧ ∃ c, df[j]? = some c ∧ c.close < c.opn ∧ c.low < cur ∧ v = c.low := by
  induction l with
  | nil => cases h
  | cons a rest ih =>
      cases hc : df[a]? with
      | none =>
          simp only [obScanLong, hc] at h
          obtain ⟨hmem, rest_h⟩ := ih h
          exact ⟨List.mem_cons_of_mem _ hmem, rest_h⟩
      | some c =>
          simp only [obScanLong, hc] at h
          by_cases hq : c.close < c.opn ∧ c.low < cur
          · rw [if_pos hq] at h
            have h2 := Option.some.inj h
            have ha : a = j := congrArg Prod.fst h2
            have hv : c.low = v := congrArg Prod.snd h2
            subst ha
            exact ⟨List.mem_cons_self _ _, c, hc, hq.1, hq.2, hv.symm⟩
          · rw [if_neg hq] at h
            obtain ⟨hmem, rest_h⟩ := ih h
            exact ⟨List.mem_cons_of_mem _ hmem, rest_h⟩

theorem obScanLong_eq_none (df : List Candle) (cur : ℚ) (l : List ℕ)
    (h : ∀ j ∈ l, ∀ c, df[j]? = some c → ¬ (c.close < c.opn ∧ c.low < cur)) :
    obScanLong df cur l = none := by
  induction l with
  | nil => rfl
  | cons a rest ih =>
      cases hc : df[a]? with
      | none =>
          simp only [obScanLong, hc]
          exact ih (fun j hj c hcr => h j (List.mem_cons_of_mem _ hj) c hcr)
      | some c =>
          simp only [obScanLong, hc]
          rw [if_neg (h a (List.mem_cons_self _ _) c hc)]
          exact ih (fun j hj c hcr => h j (List.mem_cons_of_mem _ hj) c hcr)

theorem obScanLong_first (df : List Candle) (cur : ℚ) (l : List ℕ) (j : ℕ) (v : ℚ)
    (hl : l.Pairwise (fun a b => b < a))
    (h : obScanLong df cur l = some (j, v)) :
    ∀ k ∈ l, j < k → ∀ c, df[k]? = some c → ¬ (c.close < c.opn ∧ c.low < cur) := by
  induction l with
  | nil => cases h
  | cons a rest ih =>
      obtain ⟨ha, hrest⟩ := List.pairwise_cons.mp hl
      cases hc : df[a]? with
      | none =>
          simp only [obScanLong, hc] at h
          intro k hk hjk c hck hq
          rcases List.mem_cons.mp hk with rfl | hmem
          · rw [hck] at hc; cases hc
          · exact ih hrest h k hmem hjk c hck hq
      | some c0 =>
          simp only [obScanLong, hc] at h
          by_cases hq0 : c0.close < c0.opn ∧ c0.low < cur
          · rw [if_pos hq0] at h
            have haj : a = j := congrArg Prod.fst (Option.some.inj h)
            subst haj
            intro k hk hjk c hck hq
            rcases List.mem_cons.mp hk with rfl | hmem
            · omega
            · have := ha k hmem
              omega
          · rw [if_neg hq0] at h
            intro k hk hjk c hck hq
            rcases List.mem_cons.mp hk with rfl | hmem
            · have hcc : c0 = c := Option.some.inj (hc.symm.trans hck)
              exact (hcc ▸ hq0) hq
            · exact ih hrest h k hmem hjk c hck hq

theorem obScanShort_eq_some (df : List Candle) (cur : ℚ) (l : List ℕ) (j : ℕ) (v : ℚ)
    (h : obScanShort df cur l = some (j, v)) :
    j ∈ l ∧ ∃ c, df[j]? = some c ∧ c.opn < c.close ∧ cur < c.high ∧ v = c.high := by
  induction l with
  | nil => cases h
  | cons a rest ih =>
      cases hc : df[a]? with
      | none =>
          simp only [obScanShort, hc] at h
          obtain ⟨hmem, rest_h⟩ := ih h
          exact ⟨List.mem_cons_of_mem _ hmem, rest_h⟩
      | some c =>
          simp only [obScanShort, hc] at h
          by_cases hq : c.opn < c.close ∧ cur < c.high
          · rw [if_pos hq] at h
            have h2 := Option.some.inj h
            have ha : a = j := congrArg Prod.fst h2
            have hv : c.high = v := congrArg Prod.snd h2
            subst ha
            exact ⟨List.mem_cons_self _ _, c, hc, hq.1, hq.2, hv.symm⟩
          · rw [if_neg hq] at h
            obtain ⟨hmem, rest_h⟩ := ih h
            exact ⟨List.mem_cons_of_mem _ hmem, rest_h⟩

theorem obScanShort_eq_none (df : List Candle) (cur : ℚ) (l : List ℕ)
    (h : ∀ j ∈ l, ∀ c, df[j]? = some c → ¬ (c.opn < c.close ∧ cur < c.high)) :
    obScanShort df cur l = none := by
  induction l with
  | nil => rfl
  | cons a rest ih =>
      cases hc : df[a]? with
      | none =>
          simp only [obScanShort, hc]
          exact ih (fun j hj c hcr => h j (List.mem_cons_of_mem _ hj) c hcr)
      | some c =>
          simp only [obScanShort, hc]
          rw [if_neg (h a (List.mem_cons_self _ _) c hc)]
          exact ih (fun j hj c hcr => h j (List.mem_cons_of_mem _ hj) c hcr)

theorem obScanShort_first (df : List Candle) (cur : ℚ) (l : List ℕ) (j : ℕ) (v : ℚ)
    (hl : l.Pairwise (fun a b => b < a))
    (h : obScanShort df cur l = some (j, v)) :
    ∀ k ∈ l, j < k → ∀ c, df[k]? = some c → ¬ (c.opn < c.close ∧ cur < c.high) := by
  induction l with
  | nil => cases h
  | cons a rest ih =>
      obtain ⟨ha, hrest⟩ := List.pairwise_cons.mp hl
      cases hc : df[a]? with
      | none =>
          simp only [obScanShort, hc] at h
          intro k hk hjk c hck hq
          rcases List.mem_cons.mp hk with rfl | hmem
          · rw [hck] at hc; cases hc
          · exact ih hrest h k hmem hjk c hck hq
      | some c0 =>
          simp only [obScanShort, hc] at h
          by_cases hq0 : c0.opn < c0.close ∧ cur < c0.high
          · rw [if_pos hq0] at h
            have haj : a = j := congrArg Prod.fst (Option.some.inj h)
            subst haj
            intro k hk hjk c hck hq
            rcases List.mem_cons.mp hk with rfl | hmem
            · omega
            · have := ha k hmem
              omega
          · rw [if_neg hq0] at h
            intro k hk hjk c hck hq
            rcases List.mem_cons.mp hk with rfl | hmem
            · have hcc : c0 = c := Option.some.inj (hc.symm.trans hck)
              exact (hcc ▸ hq0) hq
            · exact ih hrest h k hmem hjk c hck hq

theorem obScanLong_isSome (df : List Candle) (cur : ℚ) (l : List ℕ) :
    ∀ j ∈ l, ∀ c, df[j]? = some c → c.close < c.opn → c.low < cur →
      (obScanLong df cur l).isSome = true := by
  induction l with
  | nil => intro j hj; cases hj
  | cons a rest ih =>
      intro j hj c hc hb hlow
      cases hca : df[a]? with
      | none =>
          simp only [obScanLong, hca]
          rcases List.mem_cons.mp hj with rfl | hmem
          · rw [hc] at hca; cases hca
          · exact ih j hmem c hc hb hlow
      | some ca =>
          simp only [obScanLong, hca]
          by_cases hqa : ca.close < ca.opn ∧ ca.low < cur
          · rw [if_pos hqa]; rfl
          · rw [if_neg hqa]
            rcases List.mem_cons.mp hj with rfl | hmem
            · have hcc : ca = c := Option.some.inj (hca.symm.trans hc)
              exact absurd ⟨hcc ▸ hb, hcc ▸ hlow⟩ hqa
            · exact ih j hmem c hc hb hlow

theorem obScanShort_isSome (df : List Candle) (cur : ℚ) (l : List ℕ) :
    ∀ j ∈ l, ∀ c, df[j]? = some c → c.opn < c.close → cur < c.high →
      (obScanShort df cur l).isSome = true := by
  induction l with
  | nil => intro j hj; cases hj
  | cons a rest ih =>
      intro j hj c hc hb hhigh
      cases hca : df[a]? with
      | none =>
          simp only [obScanShort, hca]
          rcases List.mem_cons.mp hj with rfl | hmem
          · rw [hc] at hca; cases hca
          · exact ih j hmem c hc hb hhigh
      | some ca =>
          simp only [obScanShort, hca]
          by_cases hqa : ca.opn < ca.close ∧ cur < ca.high
          · rw [if_pos hqa]; rfl
          · rw [if_neg hqa]
            rcases List.mem_cons.mp hj with rfl | hmem
            · have hcc : ca = c := Option.some.inj (hca.symm.trans hc)
              exact absurd ⟨hcc ▸ hb, hcc ▸ hhigh⟩ hqa
            · exact ih j hmem c hc hb hhigh

theorem obIndices_eq (idx : ℕ) (h : 50 ≤ idx) :
    obIndices idx = (List.range 12).map (fun k => idx - 4 - k) := by
  unfold obIndices
  congr 2
  have hmax : max ((idx : ℤ) - 16) (-1) = (idx : ℤ) - 16 := by
    rw [max_eq_left]; omega
  rw [hmax, show ((idx : ℤ) - 4 - ((idx : ℤ) - 16)) = 12 by ring]
  rfl

theorem obIndices_mem (idx : ℕ) (h : 50 ≤ idx) (j : ℕ) :
    j ∈ obIndices idx ↔ idx - 15 ≤ j ∧ j ≤ idx - 4 := by
  rw [obIndices_eq idx h]
  simp only [List.mem_map, List.mem_range]
  constructor
  · rintro ⟨k, hk, rfl⟩
    omega
  · rintro ⟨h1, h2⟩
    exact ⟨idx - 4 - j, by omega, by omega⟩

theorem obIndices_pairwise (idx : ℕ) (h : 50 ≤ idx) :
    (obIndices idx).Pairwise (fun a b => b < a) := by
  rw [obIndices_eq idx h, List.pairwise_map]
  refine List.Pairwise.imp_of_mem ?_ (List.pairwise_lt_range 12)
  intro a b ha hb hab
  rw [List.mem_range] at ha hb
  omega

/-- Claim C2 (amended): when `detect_signal` fires on a long crossing with
all gates passed, it scans candles backward from `index-4` down to
`index-15` inclusive (Python's `range(idx-4, max(idx-16, -1), -1)` excludes
the stop `idx-16`): whenever any qualifying bearish candle (`close < open`,
low below the current close) exists in that range, a signal IS emitted, its
stop-loss is the low of the nearest such candle (nearest to the current
index winning) and `last_trade_index` advances to the current index; every
emitted signal is of that shape; for short, mirror behaviour with the
nearest bullish candle whose high is above the current close; and if no
qualifying candle exists in the range, no signal is emitted and
`last_trade_index` is unchanged. -/
theorem detect_signal_ob_scan (s : StratState) (df : List Candle) (idx : ℕ)
    (cur : Candle) (h50 : 50 ≤ idx) (hcur : df[idx]? = some cur) :
    (∀ sig s1, detect_signal s df idx = (some sig, s1) → sig.dir = Dir.long →
       ∃ j c, idx - 15 ≤ j ∧ j ≤ idx - 4 ∧ df[j]? = some c ∧
         c.close < c.opn ∧ c.low < cur.close ∧ sig.stop_loss = c.low ∧
         ∀ k c2, j < k → k ≤ idx - 4 → idx - 15 ≤ k → df[k]? = some c2 →
           ¬ (c2.close < c2.opn ∧ c2.low < cur.close)) ∧
    (∀ sig s1, detect_signal s df idx = (some sig, s1) → sig.dir = Dir.short →
       ∃ j c, idx - 15 ≤ j ∧ j ≤ idx - 4 ∧ df[j]? = some c ∧
         c.opn < c.close ∧ cur.close < c.high ∧ sig.stop_loss = c.high ∧
         ∀ k c2, j < k → k ≤ idx - 4 → idx - 15 ≤ k → df[k]? = some c2 →
           ¬ (c2.opn < c2.close ∧ cur.close < c2.high)) ∧
    (long_trigger s df idx = true →
       (∀ j c, idx - 15 ≤ j → j ≤ idx - 4 → df[j]? = some c →
         ¬ (c.close < c.opn ∧ c.low < cur.close)) →
       detect_signal s df idx = (none, s)) ∧
    (long_trigger s df idx = false → short_trigger s df idx = true →
       (∀ j c, idx - 15 ≤ j → j ≤ idx - 4 → df[j]? = some c →
         ¬ (c.opn < c.close ∧ cur.close < c.high)) →
       detect_signal s df idx = (none, s)) ∧
    (long_trigger s df idx = true →
       ∀ jq cq, idx - 15 ≤ jq → jq ≤ idx - 4 → df[jq]? = some cq →
         cq.close < cq.opn → cq.low < cur.close →
       ∃ sig j c, detect_signal s df idx =
           (some sig, { s with last_trade_index := (idx : ℤ) }) ∧
         sig.dir = Dir.long ∧ sig.entry_price = cur.close ∧
         idx - 15 ≤ j ∧ j ≤ idx - 4 ∧ df[j]? = some c ∧
         c.close < c.opn ∧ c.low < cur.close ∧ sig.stop_loss = c.low ∧
         ∀ k c2, j < k → k ≤ idx - 4 → idx - 15 ≤ k → df[k]? = some c2 →
           ¬ (c2.close < c2.opn ∧ c2.low < cur.close)) ∧
    (long_trigger s df idx = false → short_trigger s df idx = true →
       ∀ jq cq, idx - 15 ≤ jq → jq ≤ idx - 4 → df[jq]? = some cq →
         cq.opn < cq.close → cur.close < cq.high →
       ∃ sig j c, detect_signal s df idx =
           (some sig, { s with last_trade_index := (idx : ℤ) }) ∧
         sig.dir = Dir.short ∧ sig.entry_price = cur.close ∧
         idx - 15 ≤ j ∧ j ≤ idx - 4 ∧ df[j]? = some c ∧
         c.opn < c.close ∧ cur.close < c.high ∧ sig.stop_loss = c.high ∧
         ∀ k c2, j < k → k ≤ idx - 4 → idx - 15 ≤ k → df[k]? = some c2 →
           ¬ (c2.opn < c2.close ∧ cur.close < c2.high)) := by
  have hnotlt : ¬ idx < 50 := by omega
  refine ⟨?_, ?_, ?_, ?_, ?_, ?_⟩
  · intro sig s1 hds hdir
    by_cases hlt : long_trigger s df idx = true
    · simp only [detect_signal, hnotlt, if_false, hlt, if_true, hcur] at hds
      cases hscan : obScanLong df cur.close (obIndices idx) with
      | none =>
          simp only [hscan] at hds
          injection hds with h1 h2
          cases h1
      | some jv =>
          obtain ⟨j, v⟩ := jv
          simp only [hscan] at hds
          injection hds with h1 h2
          have hsig : sig = ⟨Dir.long, cur.close, v, cur.timestamp, j⟩ :=
            (Option.some.inj h1).symm
          obtain ⟨hmem, c, hc, hb, hlow, hveq⟩ := obScanLong_eq_some df cur.close _ j v hscan
          have hbounds := (obIndices_mem idx h50 j).mp hmem
          refine ⟨j, c, hbounds.1, hbounds.2, hc, hb, hlow, ?_, ?_⟩
          · rw [hsig]
            exact hveq
          · intro k c2 hjk hk4 hk15 hck2 hq
            exact obScanLong_first df cur.close _ j v (obIndices_pairwise idx h50) hscan k
              ((obIndices_mem idx h50 k).mpr ⟨hk15, hk4⟩) hjk c2 hck2 hq
    · by_cases hst : short_trigger s df idx = true
      · simp only [detect_signal, hnotlt, if_false, hlt, hst, if_true, hcur] at hds
        cases hscan : obScanShort df cur.close (obIndices idx) with
        | none =>
            simp only [hscan] at hds
            injection hds with h1 h2
            cases h1
        | some jv =>
            obtain ⟨j, v⟩ := jv
            simp only [hscan] at hds
            injection hds with h1 h2
            have hsig : sig = ⟨Dir.short, cur.close, v, cur.timestamp, j⟩ :=
              (Option.some.inj h1).symm
            rw [hsig] at hdir
            cases hdir
      · simp only [detect_signal, hnotlt, if_false, hlt, hst] at hds
        injection hds with h1 h2
        cases h1
  · intro sig s1 hds hdir
    by_cases hlt : long_trigger s df idx = true
    · simp only [detect_signal, hnotlt, if_false, hlt, if_true, hcur] at hds
      cases hscan : obScanLong df cur.close (obIndices idx) with
      | none =>
          simp only [hscan] at hds
          injection hds with h1 h2
          cases h1
      | some jv =>
          obtain ⟨j, v⟩ := jv
          simp only [hscan] at hds
          injection hds with h1 h2
          have hsig : sig = ⟨Dir.long, cur.close, v, cur.timestamp, j⟩ :=
            (Option.some.inj h1).symm
          rw [hsig] at hdir
          cases hdir
    · by_cases hst : short_trigger s df idx = true
      · simp only [detect_signal, hnotlt, if_false, hlt, hst, if_true, hcur] at hds
        cases hscan : obScanShort df cur.close (obIndices idx) with
        | none =>
            simp only [hscan] at hds
            injection hds with h1 h2
            cases h1
        | some jv =>
            obtain ⟨j, v⟩ := jv
            simp only [hscan] at hds
            injection hds with h1 h2
            have hsig : sig = ⟨Dir.short, cur.close, v, cur.timestamp, j⟩ :=
              (Option.some.inj h1).symm
            obtain ⟨hmem, c, hc, hb, hhigh, hveq⟩ := obScanShort_eq_some df cur.close _ j v hscan
            have hbounds := (obIndices_mem idx h50 j).mp hmem
            refine ⟨j, c, hbounds.1, hbounds.2, hc, hb, hhigh, ?_, ?_⟩
            · rw [hsig]
              exact hveq
            · intro k c2 hjk hk4 hk15 hck2 hq
              exact obScanShort_first df cur.close _ j v (obIndices_pairwise idx h50) hscan k
                ((obIndices_mem idx h50 k).mpr ⟨hk15, hk4⟩) hjk c2 hck2 hq
      · simp only [detect_signal, hnotlt, if_false, hlt, hst] at hds
        injection hds with h1 h2
        cases h1
  · intro hlt hnoq
    have hnone : obScanLong df cur.close (obIndices idx) = none :=
      obScanLong_eq_none df cur.close _ (fun j hj c hc =>
        hnoq j c ((obIndices_mem idx h50 j).mp hj).1 ((obIndices_mem idx h50 j).mp hj).2 hc)
    simp only [detect_signal, hnotlt, if_false, hlt, if_true, hcur, hnone]
  · intro hlf hst hnoq
    have hnone : obScanShort df cur.close (obIndices idx) = none :=
      obScanShort_eq_none df cur.close _ (fun j hj c hc =>
        hnoq j c ((obIndices_mem idx h50 j).mp hj).1 ((obIndices_mem idx h50 j).mp hj).2 hc)
    simp only [detect_signal, hnotlt, if_false, hlf, hst, if_true, hcur, hnone,
      Bool.false_eq_true]
  · intro hlt jq cq hj1 hj2 hcq hbq hlowq
    have hsome : (obScanLong df cur.close (obIndices idx)).isSome = true :=
      obScanLong_isSome df cur.close _ jq ((obIndices_mem idx h50 jq).mpr ⟨hj1, hj2⟩)
        cq hcq hbq hlowq
    cases hscan : obScanLong df cur.close (obIndices idx) with
    | none => rw [hscan] at hsome; cases hsome
    | some jv =>
        obtain ⟨j, v⟩ := jv
        obtain ⟨hmem, c, hc, hb, hlow, hveq⟩ := obScanLong_eq_some df cur.close _ j v hscan
        have hbounds := (obIndices_mem idx h50 j).mp hmem
        refine ⟨⟨Dir.long, cur.close, v, cur.timestamp, j⟩, j, c, ?_, rfl, rfl,
          hbounds.1, hbounds.2, hc, hb, hlow, hveq, ?_⟩
        · simp only [detect_signal, hnotlt, if_false, hlt, if_true, hcur, hscan]
        · intro k c2 hjk hk4 hk15 hck2 hq
          exact obScanLong_first df cur.close _ j v (obIndices_pairwise idx h50) hscan k
            ((obIndices_mem idx h50 k).mpr ⟨hk15, hk4⟩) hjk c2 hck2 hq
  · intro hlf hst jq cq hj1 hj2 hcq hbq hhighq
    have hsome : (obScanShort df cur.close (obIndices idx)).isSome = true :=
      obScanShort_isSome df cur.close _ jq ((obIndices_mem idx h50 jq).mpr ⟨hj1, hj2⟩)
        cq hcq hbq hhighq
    cases hscan : obScanShort df cur.close (obIndices idx) with
    | none => rw [hscan] at hsome; cases hsome
    | some jv =>
        obtain ⟨j, v⟩ := jv
        obtain ⟨hmem, c, hc, hb, hhigh, hveq⟩ := obScanShort_eq_some df cur.close _ j v hscan
        have hbounds := (obIndices_mem idx h50 j).mp hmem
        refine ⟨⟨Dir.short, cur.close, v, cur.timestamp, j⟩, j, c, ?_, rfl, rfl,
          hbounds.1, hbounds.2, hc, hb, hhigh, hveq, ?_⟩
        · simp only [detect_signal, hnotlt, if_false, hlf, hst, if_true, hcur, hscan,
            Bool.false_eq_true]
        · intro k c2 hjk hk4 hk15 hck2 hq
          exact obScanShort_first df cur.close _ j v (obIndices_pairwise idx h50) hscan k
            ((obIndices_mem idx h50 k).mpr ⟨hk15, hk4⟩) hjk c2 hck2 hq

/-- The default-parameter strategy state (sensitivity 0.015, minimum volume
percentile 50, trend period 20, minimum trade distance 10) right after
construction, so `last_trade_index = -10`. -/
def s0 : StratState :=
  { sensitivity := 15 / 1000, min_volume_percentile := 50, trend_period := 20,
    min_trades_distance := 10, last_trade_index := -10 }

/-! ### The concrete frame refuting the `index-16` part of claim C2 -/

/-- Filler candle: open 100, high 101, low 99, close 100, volume 1. -/
def base : Candle :=
  { timestamp := 0, opn := 100, high := 101, low := 99, close := 100, volume := 1 }

/-- The candidate order-block candle: bearish (close 99 < open 100). -/
def obC : Candle :=
  { timestamp := 0, opn := 100, high := 101, low := 99, close := 99, volume := 1 }

/-- Row 49 closes at 110 to lift the short trend average above the long one. -/
def c49 : Candle :=
  { timestamp := 0, opn := 100, high := 101, low := 99, close := 110, volume := 1 }

/-- Row 50, the trigger row: open 101 makes the percent-change cross the
sensitivity band upward, volume 2 tops the volume percentile. -/
def c50 : Candle :=
  { timestamp := 0, opn := 101, high := 111, low := 101, close := 110, volume := 2 }

/-- A 51-row frame whose only bearish candle sits exactly at row
`34 = 50 - 16`, one step beyond the end of the backward order-block scan. -/
def df2 : List Candle :=
  List.replicate 34 base ++ [obC] ++ List.replicate 14 base ++ [c49, c50]

theorem df2_length : df2.length = 51 := by
  simp [df2]

theorem getElem?_replicate_eq {α : Type} (n : ℕ) (a : α) (j : ℕ) :
    (List.replicate n a)[j]? = if j < n then some a else none := by
  induction n generalizing j with
  | zero => simp
  | succ n ih =>
      cases j with
      | zero => simp [List.replicate_succ]
      | succ j =>
          rw [List.replicate_succ, List.getElem?_cons_succ, ih]
          by_cases h : j < n
          · rw [if_pos h, if_pos (by omega)]
          · rw [if_neg h, if_neg (by omega)]

theorem df2_get_lt34 (j : ℕ) (h : j < 34) : df2[j]? = some base := by
  rw [show df2 = List.replicate 34 base ++ ([obC] ++ (List.replicate 14 base ++ [c49, c50]))
      by simp [df2],
    List.getElem?_append_left (by rw [List.length_replicate]; omega),
    getElem?_replicate_eq, if_pos h]

theorem df2_get_34 : df2[34]? = some obC := by decide

theorem df2_get_mid (j : ℕ) (h1 : 35 ≤ j) (h2 : j ≤ 48) : df2[j]? = some base := by
  have hsplit : df2 = (List.replicate 34 base ++ [obC]) ++
      (List.replicate 14 base ++ [c49, c50]) := by
    simp [df2]
  have hlen35 : (List.replicate 34 base ++ [obC]).length = 35 := by simp
  rw [hsplit, List.getElem?_append, hlen35, if_neg (by omega),
    List.getElem?_append_left (by rw [List.length_replicate]; omega),
    getElem?_replicate_eq, if_pos (by omega)]

theorem df2_get_49 : df2[49]? = some c49 := by decide

theorem df2_get_50 : df2[50]? = some c50 := by decide

theorem df2_get_ge51 (j : ℕ) (h : 51 ≤ j) : df2[j]? = none :=
  List.getElem?_eq_none (by rw [df2_length]; omega)

theorem df2_get (j : ℕ) :
    df2[j]? = if j < 34 then some base else if j = 34 then some obC
      else if j < 49 then some base else if j = 49 then some c49
      else if j = 50 then some c50 else none := by
  rcases Nat.lt_or_ge j 34 with h | h
  · rw [if_pos h]
    exact df2_get_lt34 j h
  · rw [if_neg (by omega)]
    rcases Nat.eq_or_lt_of_le h with heq | h35
    · subst heq
      rw [if_pos rfl]
      exact df2_get_34
    · rw [if_neg (by omega)]
      rcases Nat.lt_or_ge j 49 with h49 | h49
      · rw [if_pos h49]
        exact df2_get_mid j (by omega) (by omega)
      · rw [if_neg (by omega)]
        rcases Nat.eq_or_lt_of_le h49 with heq | h50
        · subst heq
          rw [if_pos rfl]
          exact df2_get_49
        · rw [if_neg (by omega)]
          rcases Nat.eq_or_lt_of_le h50 with heq | h51
          · have hj : j = 50 := by omega
            subst hj
            rw [if_pos rfl]
            exact df2_get_50
          · rw [if_neg (by omega)]
            exact df2_get_ge51 j (by omega)

theorem tr_val_a : max ((101 : ℚ) - 99) (max |(101 : ℚ) - 100| |(99 : ℚ) - 100|) = 2 := by
  rw [show (101 : ℚ) - 100 = 1 by norm_num, show (99 : ℚ) - 100 = -1 by norm_num,
    abs_one, abs_neg, abs_one, max_self, show (101 : ℚ) - 99 = 2 by norm_num]
  exact max_eq_left (by norm_num)

theorem tr_val_b : max ((101 : ℚ) - 99) (max |(101 : ℚ) - 99| |(99 : ℚ) - 99|) = 2 := by
  rw [show (99 : ℚ) - 99 = 0 by norm_num, show (101 : ℚ) - 99 = 2 by norm_num,
    abs_zero, show |(2 : ℚ)| = 2 from abs_of_nonneg (by norm_num),
    show max (2 : ℚ) 0 = 2 from max_eq_left (by norm_num), max_self]

theorem tr_df2 (j : ℕ) (h1 : 1 ≤ j) (h2 : j ≤ 49) : tr df2 j = some 2 := by
  unfold tr
  rw [if_pos ⟨h1, by rw [df2_length]; omega⟩]
  rcases Nat.lt_or_ge j 34 with hj | hj
  · rw [df2_get_lt34 j hj, df2_get_lt34 (j - 1) (by omega)]
    simp only [base]
    rw [tr_val_a]
  rcases Nat.eq_or_lt_of_le hj with heq | hj35
  · subst heq
    rw [df2_get_34, df2_get_lt34 33 (by norm_num)]
    simp only [obC, base]
    rw [tr_val_a]
  rcases Nat.eq_or_lt_of_le hj35 with heq | hj36
  · have hj' : j = 35 := by omega
    subst hj'
    rw [show (35 : ℕ) - 1 = 34 from rfl, df2_get_mid 35 (by norm_num) (by norm_num), df2_get_34]
    simp only [base, obC]
    rw [tr_val_b]
  rcases Nat.lt_or_ge j 49 with hj49 | hj49
  · rw [df2_get_mid j (by omega) (by omega), df2_get_mid (j - 1) (by omega) (by omega)]
    simp only [base]
    rw [tr_val_a]
  · have hj' : j = 49 := by omega
    subst hj'
    rw [show (49 : ℕ) - 1 = 48 from rfl, df2_get_49, df2_get_mid 48 (by norm_num) (by norm_num)]
    simp only [c49, base]
    rw [tr_val_a]

theorem seqOpt_replicate (n : ℕ) (a : ℚ) :
    seqOpt (List.replicate n (some a)) = some (List.replicate n a) := by
  induction n with
  | zero => rfl
  | succ n ih =>
      rw [List.replicate_succ, List.replicate_succ]
      simp only [seqOpt, ih]
      rfl

theorem mean_replicate (n : ℕ) (a : ℚ) (hn : (n : ℚ) ≠ 0) :
    mean (List.replicate n a) = a := by
  unfold mean
  rw [List.sum_replicate, List.length_replicate, nsmul_eq_mul]
  field_simp

theorem atr_df2 (j : ℕ) (h1 : 15 ≤ j) (h2 : j ≤ 50) : atr df2 j = some 2 := by
  unfold atr
  rw [if_pos ⟨by omega, by rw [df2_length]; omega⟩]
  have hmap : (List.range 14).map (fun k => tr df2 (j - 14 + k)) =
      List.replicate 14 (some (2 : ℚ)) := by
    rw [map_congr_mem (List.range 14) _ (fun _ => some (2 : ℚ))
      (fun k hk => tr_df2 (j - 14 + k) (by rw [List.mem_range] at hk; omega)
        (by rw [List.mem_range] at hk; omega))]
    rw [List.map_const', List.length_range]
  rw [hmap, seqOpt_replicate]
  show some (mean (List.replicate 14 (2 : ℚ))) = some 2
  rw [mean_replicate 14 2 (by norm_num)]

theorem atr_df2_eq (j : ℕ) (hj : j < 51) :
    atr df2 j = if 15 ≤ j then some 2 else none := by
  by_cases h15 : 15 ≤ j
  · rw [if_pos h15]
    exact atr_df2 j h15 (by omega)
  · rw [if_neg h15]
    cases hat : atr df2 j with
    | none => rfl
    | some v =>
        have h := atr_isSome df2 j
        rw [hat] at h
        simp only [Option.isSome_some, true_iff] at h
        omega

theorem expanding_avg_atr_df2_50 : expanding_avg_atr df2 50 = some 2 := by
  have hfm : (List.range 50).filterMap (atr df2) =
      (List.range 50).filterMap (fun j => if 15 ≤ j then some (2 : ℚ) else none) := by
    refine filterMap_congr_mem _ _ _ (fun j hj => ?_)
    rw [List.mem_range] at hj
    exact atr_df2_eq j (by omega)
  have hev : (List.range 50).filterMap (fun j => if 15 ≤ j then some (2 : ℚ) else none) =
      List.replicate 35 2 := by decide
  unfold expanding_avg_atr
  rw [if_pos ⟨by norm_num, by rw [df2_length]; norm_num⟩, hfm, hev,
    if_neg (by decide), mean_replicate 35 2 (by norm_num)]

theorem volume_percentile_df2_50 : volume_percentile df2 50 = some 100 := by
  have hflen : ((df2.take 50).filter (fun c => decide (c.volume < c50.volume))).length = 50 := by
    decide
  unfold volume_percentile
  rw [if_pos (by rw [df2_length]; norm_num), if_neg (by norm_num), df2_get_50]
  show some ((((df2.take 50).filter (fun c => decide (c.volume < c50.volume))).length : ℚ)
      / ((50 : ℕ) : ℚ) * 100) = some 100
  rw [hflen]
  norm_num

theorem win20_df2 : ((df2.take 50).drop 30).map Candle.close =
    [100, 100, 100, 100, 99, 100, 100, 100, 100, 100,
     100, 100, 100, 100, 100, 100, 100, 100, 100, 110] := by
  decide

theorem sma20_df2_50 : sma20 20 df2 50 = some (2009 / 20) := by
  unfold sma20 sma_shift
  rw [if_pos ⟨by norm_num, by rw [df2_length]; norm_num⟩,
    show (50 : ℕ) - 20 = 30 from rfl, win20_df2]
  show some (mean [100, 100, 100, 100, 99, 100, 100, 100, 100, 100,
     100, 100, 100, 100, 100, 100, 100, 100, 100, 110]) = some (2009 / 20)
  norm_num [mean, List.sum_cons, List.sum_nil]

theorem win50_df2 : ((df2.take 50).drop 0).map Candle.close =
    [100, 100, 100, 100, 100, 100, 100, 100, 100, 100,
     100, 100, 100, 100, 100, 100, 100, 100, 100, 100,
     100, 100, 100, 100, 100, 100, 100, 100, 100, 100,
     100, 100, 100, 100, 99, 100, 100, 100, 100, 100,
     100, 100, 100, 100, 100, 100, 100, 100, 100, 110] := by
  decide

theorem sma50_df2_50 : sma50 df2 50 = some (5009 / 50) := by
  unfold sma50 sma_shift
  rw [if_pos ⟨by norm_num, by rw [df2_length]; norm_num⟩,
    show (50 : ℕ) - 50 = 0 from rfl, win50_df2]
  show some (mean [100, 100, 100, 100, 100, 100, 100, 100, 100, 100,
     100, 100, 100, 100, 100, 100, 100, 100, 100, 100,
     100, 100, 100, 100, 100, 100, 100, 100, 100, 100,
     100, 100, 100, 100, 99, 100, 100, 100, 100, 100,
     100, 100, 100, 100, 100, 100, 100, 100, 100, 110]) = some (5009 / 50)
  norm_num [mean, List.sum_cons, List.sum_nil]

theorem roc_df2_50 : roc df2 50 = some 10 := by
  unfold roc
  rw [if_pos ⟨by norm_num, by rw [df2_length]; norm_num⟩, df2_get_50,
    show (50 : ℕ) - 10 = 40 from rfl, df2_get_mid 40 (by norm_num) (by norm_num)]
  simp only [c50, base]
  norm_num

theorem pc_df2_50 : pc df2 50 = some 1 := by
  unfold pc
  rw [if_pos ⟨by norm_num, by rw [df2_length]; norm_num⟩, df2_get_50,
    show (50 : ℕ) - 4 = 46 from rfl, df2_get_mid 46 (by norm_num) (by norm_num)]
  simp only [c50, base]
  norm_num

theorem pc_df2_49 : pc df2 49 = some 0 := by
  unfold pc
  rw [if_pos ⟨by norm_num, by rw [df2_length]; norm_num⟩, df2_get_49,
    show (49 : ℕ) - 4 = 45 from rfl, df2_get_mid 45 (by norm_num) (by norm_num)]
  simp only [c49, base]
  norm_num

theorem is_valid_df2 : is_valid_trade_condition s0 df2 50 true = true := by
  unfold is_valid_trade_condition
  rw [if_neg (by norm_num [s0])]
  simp only [volume_percentile_df2_50]
  rw [if_neg (show ¬ ((100 : ℚ) < s0.min_volume_percentile) by norm_num [s0])]
  simp only [show sma20 s0.trend_period df2 50 = some (2009 / 20) from sma20_df2_50,
    sma50_df2_50, roc_df2_50, atr_df2 50 (by norm_num) (by norm_num),
    expanding_avg_atr_df2_50]
  rw [if_pos trivial]
  simp only [Bool.and_eq_true, decide_eq_true_eq]
  refine ⟨⟨?_, ?_⟩, ?_⟩ <;> norm_num

theorem long_trigger_df2 : long_trigger s0 df2 50 = true := by
  unfold long_trigger
  rw [is_valid_df2, show (50 : ℕ) - 1 = 49 from rfl, pc_df2_49, pc_df2_50]
  simp only [optLtB, optGeB, Bool.true_and, Bool.and_eq_true, decide_eq_true_eq]
  constructor <;> norm_num [s0]

theorem detect_signal_df2 : detect_signal s0 df2 50 = (none, s0) := by
  have hnoq : ∀ j c, (50 : ℕ) - 15 ≤ j → j ≤ (50 : ℕ) - 4 → df2[j]? = some c →
      ¬ (c.close < c.opn ∧ c.low < c50.close) := by
    intro j c hj1 hj2 hc
    rw [df2_get_mid j (by omega) (by omega)] at hc
    obtain rfl := (Option.some.inj hc).symm
    intro hq
    exact absurd hq.1 (by norm_num [base])
  exact (detect_signal_ob_scan s0 df2 50 c50 (by norm_num) df2_get_50).2.2.1
    long_trigger_df2 hnoq

/-- Claim C2 counterexample: on `df2` the long trigger at index 50 fires
with every gate passed, the only qualifying bearish order-block candle
(close 99 < open 100, low 99 < current close 110) sits exactly at index
`34 = 50 - 16`, and yet `detect_signal` emits no signal and leaves
`last_trade_index` unchanged: the backward scan stops at index
`35 = 50 - 15` and never inspects index `50 - 16`. -/
theorem detect_signal_misses_index16 :
    long_trigger s0 df2 50 = true ∧
    (50 : ℕ) - 16 = 34 ∧
    df2[34]? = some obC ∧
    obC.close < obC.opn ∧
    df2[50]? = some c50 ∧
    obC.low < c50.close ∧
    (∀ j c, (50 : ℕ) - 15 ≤ j → j ≤ (50 : ℕ) - 4 → df2[j]? = some c →
       ¬ (c.close < c.opn ∧ c.low < c50.close)) ∧
    detect_signal s0 df2 50 = (none, s0) :=
  ⟨long_trigger_df2, rfl, df2_get_34, by norm_num [obC], df2_get_50,
   by norm_num [obC, c50],
   fun j c hj1 hj2 hc => by
     rw [df2_get_mid j (by omega) (by omega)] at hc
     obtain rfl := (Option.some.inj hc).symm
     intro hq
     exact absurd hq.1 (by norm_num [base]),
   detect_signal_df2⟩

/-! ### A frame on which a signal is actually emitted (witness for C2) -/

/-- Like `df2`, but the bearish order-block candle sits at row 40, inside
the backward scan range `[35, 46]` of index 50: rows 0-39 are `base`, row
40 is `obC`, rows 41-48 are `base`, row 49 is `c49`, row 50 is `c50`. -/
def df3 : List Candle :=
  List.replicate 40 base ++ [obC] ++ List.replicate 8 base ++ [c49, c50]

theorem df3_length : df3.length = 51 := by
  simp [df3]

theorem df3_get_lt40 (j : ℕ) (h : j < 40) : df3[j]? = some base := by
  rw [show df3 = List.replicate 40 base ++ ([obC] ++ (List.replicate 8 base ++ [c49, c50]))
      by simp [df3],
    List.getElem?_append_left (by rw [List.length_replicate]; omega),
    getElem?_replicate_eq, if_pos h]

theorem df3_get_40 : df3[40]? = some obC := by decide

theorem df3_get_mid (j : ℕ) (h1 : 41 ≤ j) (h2 : j ≤ 48) : df3[j]? = some base := by
  have hsplit : df3 = (List.replicate 40 base ++ [obC]) ++
      (List.replicate 8 base ++ [c49, c50]) := by
    simp [df3]
  have hlen41 : (List.replicate 40 base ++ [obC]).length = 41 := by simp
  rw [hsplit, List.getElem?_append, hlen41, if_neg (by omega),
    List.getElem?_append_left (by rw [List.length_replicate]; omega),
    getElem?_replicate_eq, if_pos (by omega)]

theorem df3_get_49 : df3[49]? = some c49 := by decide

theorem df3_get_50 : df3[50]? = some c50 := by decide

theorem tr_df3 (j : ℕ) (h1 : 1 ≤ j) (h2 : j ≤ 49) : tr df3 j = some 2 := by
  unfold tr
  rw [if_pos ⟨h1, by rw [df3_length]; omega⟩]
  rcases Nat.lt_or_ge j 40 with hj | hj
  · rw [df3_get_lt40 j hj, df3_get_lt40 (j - 1) (by omega)]
    simp only [base]
    rw [tr_val_a]
  rcases Nat.eq_or_lt_of_le hj with heq | hj41
  · subst heq
    rw [df3_get_40, df3_get_lt40 39 (by norm_num)]
    simp only [obC, base]
    rw [tr_val_a]
  rcases Nat.eq_or_lt_of_le hj41 with heq | hj42
  · have hj' : j = 41 := by omega
    subst hj'
    rw [show (41 : ℕ) - 1 = 40 from rfl, df3_get_mid 41 (by norm_num) (by norm_num), df3_get_40]
    simp only [base, obC]
    rw [tr_val_b]
  rcases Nat.lt_or_ge j 49 with hj49 | hj49
  · rw [df3_get_mid j (by omega) (by omega), df3_get_mid (j - 1) (by omega) (by omega)]
    simp only [base]
    rw [tr_val_a]
  · have hj' : j = 49 := by omega
    subst hj'
    rw [show (49 : ℕ) - 1 = 48 from rfl, df3_get_49, df3_get_mid 48 (by norm_num) (by norm_num)]
    simp only [c49, base]
    rw [tr_val_a]

theorem atr_df3 (j : ℕ) (h1 : 15 ≤ j) (h2 : j ≤ 50) : atr df3 j = some 2 := by
  unfold atr
  rw [if_pos ⟨by omega, by rw [df3_length]; omega⟩]
  have hmap : (List.range 14).map (fun k => tr df3 (j - 14 + k)) =
      List.replicate 14 (some (2 : ℚ)) := by
    rw [map_congr_mem (List.range 14) _ (fun _ => some (2 : ℚ))
      (fun k hk => tr_df3 (j - 14 + k) (by rw [List.mem_range] at hk; omega)
        (by rw [List.mem_range] at hk; omega))]
    rw [List.map_const', List.length_range]
  rw [hmap, seqOpt_replicate]
  show some (mean (List.replicate 14 (2 : ℚ))) = some 2
  rw [mean_replicate 14 2 (by norm_num)]

theorem atr_df3_eq (j : ℕ) (hj : j < 51) :
    atr df3 j = if 15 ≤ j then some 2 else none := by
  by_cases h15 : 15 ≤ j
  · rw [if_pos h15]
    exact atr_df3 j h15 (by omega)
  · rw [if_neg h15]
    cases hat : atr df3 j with
    | none => rfl
    | some v =>
        have h := atr_isSome df3 j
        rw [hat] at h
        simp only [Option.isSome_some, true_iff] at h
        omega

theorem expanding_avg_atr_df3_50 : expanding_avg_atr df3 50 = some 2 := by
  have hfm : (List.range 50).filterMap (atr df3) =
      (List.range 50).filterMap (fun j => if 15 ≤ j then some (2 : ℚ) else none) := by
    refine filterMap_congr_mem _ _ _ (fun j hj => ?_)
    rw [List.mem_range] at hj
    exact atr_df3_eq j (by omega)
  have hev : (List.range 50).filterMap (fun j => if 15 ≤ j then some (2 : ℚ) else none) =
      List.replicate 35 2 := by decide
  unfold expanding_avg_atr
  rw [if_pos ⟨by norm_num, by rw [df3_length]; norm_num⟩, hfm, hev,
    if_neg (by decide), mean_replicate 35 2 (by norm_num)]

theorem volume_percentile_df3_50 : volume_percentile df3 50 = some 100 := by
  have hflen : ((df3.take 50).filter (fun c => decide (c.volume < c50.volume))).length = 50 := by
    decide
  unfold volume_percentile
  rw [if_pos (by rw [df3_length]; norm_num), if_neg (by norm_num), df3_get_50]
  show some ((((df3.take 50).filter (fun c => decide (c.volume < c50.volume))).length : ℚ)
      / ((50 : ℕ) : ℚ) * 100) = some 100
  rw [hflen]
  norm_num

theorem win20_df3 : ((df3.take 50).drop 30).map Candle.close =
    [100, 100, 100, 100, 100, 100, 100, 100, 100, 100,
     99, 100, 100, 100, 100, 100, 100, 100, 100, 110] := by
  decide

theorem sma20_df3_50 : sma20 20 df3 50 = some (2009 / 20) := by
  unfold sma20 sma_shift
  rw [if_pos ⟨by norm_num, by rw [df3_length]; norm_num⟩,
    show (50 : ℕ) - 20 = 30 from rfl, win20_df3]
  show some (mean [100, 100, 100, 100, 100, 100, 100, 100, 100, 100,
     99, 100, 100, 100, 100, 100, 100, 100, 100, 110]) = some (2009 / 20)
  norm_num [mean, List.sum_cons, List.sum_nil]

theorem win50_df3 : ((df3.take 50).drop 0).map Candle.close =
    [100, 100, 100, 100, 100, 100, 100, 100, 100, 100,
     100, 100, 100, 100, 100, 100, 100, 100, 100, 100,
     100, 100, 100, 100, 100, 100, 100, 100, 100, 100,
     100, 100, 100, 100, 100, 100, 100, 100, 100, 100,
     99, 100, 100, 100, 100, 100, 100, 100, 100, 110] := by
  decide

theorem sma50_df3_50 : sma50 df3 50 = some (5009 / 50) := by
  unfold sma50 sma_shift
  rw [if_pos ⟨by norm_num, by rw [df3_length]; norm_num⟩,
    show (50 : ℕ) - 50 = 0 from rfl, win50_df3]
  show some (mean [100, 100, 100, 100, 100, 100, 100, 100, 100, 100,
     100, 100, 100, 100, 100, 100, 100, 100, 100, 100,
     100, 100, 100, 100, 100, 100, 100, 100, 100, 100,
     100, 100, 100, 100, 100, 100, 100, 100, 100, 100,
     99, 100, 100, 100, 100, 100, 100, 100, 100, 110]) = some (5009 / 50)
  norm_num [mean, List.sum_cons, List.sum_nil]

theorem roc_df3_50 : roc df3 50 = some (1100 / 99) := by
  unfold roc
  rw [if_pos ⟨by norm_num, by rw [df3_length]; norm_num⟩, df3_get_50,
    show (50 : ℕ) - 10 = 40 from rfl, df3_get_40]
  simp only [c50, obC]
  norm_num

theorem pc_df3_50 : pc df3 50 = some 1 := by
  unfold pc
  rw [if_pos ⟨by norm_num, by rw [df3_length]; norm_num⟩, df3_get_50,
    show (50 : ℕ) - 4 = 46 from rfl, df3_get_mid 46 (by norm_num) (by norm_num)]
  simp only [c50, base]
  norm_num

theorem pc_df3_49 : pc df3 49 = some 0 := by
  unfold pc
  rw [if_pos ⟨by norm_num, by rw [df3_length]; norm_num⟩, df3_get_49,
    show (49 : ℕ) - 4 = 45 from rfl, df3_get_mid 45 (by norm_num) (by norm_num)]
  simp only [c49, base]
  norm_num

theorem is_valid_df3 : is_valid_trade_condition s0 df3 50 true = true := by
  unfold is_valid_trade_condition
  rw [if_neg (by norm_num [s0])]
  simp only [volume_percentile_df3_50]
  rw [if_neg (show ¬ ((100 : ℚ) < s0.min_volume_percentile) by norm_num [s0])]
  simp only [show sma20 s0.trend_period df3 50 = some (2009 / 20) from sma20_df3_50,
    sma50_df3_50, roc_df3_50, atr_df3 50 (by norm_num) (by norm_num),
    expanding_avg_atr_df3_50]
  rw [if_pos trivial]
  simp only [Bool.and_eq_true, decide_eq_true_eq]
  refine ⟨⟨?_, ?_⟩, ?_⟩ <;> norm_num

theorem long_trigger_df3 : long_trigger s0 df3 50 = true := by
  unfold long_trigger
  rw [is_valid_df3, show (50 : ℕ) - 1 = 49 from rfl, pc_df3_49, pc_df3_50]
  simp only [optLtB, optGeB, Bool.true_and, Bool.and_eq_true, decide_eq_true_eq]
  constructor <;> norm_num [s0]

/-- Witness for C2: on `df3` (order-block candle at row 40, inside the scan
range) the long trigger fires at index 50 and the emission conjunct of the
theorem applies with every hypothesis discharged: a signal is actually
emitted, `last_trade_index` advances to 50, and the stop-loss is the low of
the nearest qualifying bearish candle. -/
theorem detect_signal_ob_scan_witness :
    ((50 : ℕ) ≤ 50) ∧ (df3[50]? = some c50) ∧
    (long_trigger s0 df3 50 = true) ∧
    ((50 : ℕ) - 15 ≤ 40) ∧ ((40 : ℕ) ≤ 50 - 4) ∧ (df3[40]? = some obC) ∧
    (obC.close < obC.opn) ∧ (obC.low < c50.close) ∧
    (∃ sig j c, detect_signal s0 df3 50 =
        (some sig, { s0 with last_trade_index := ((50 : ℕ) : ℤ) }) ∧
      sig.dir = Dir.long ∧ sig.entry_price = c50.close ∧
      50 - 15 ≤ j ∧ j ≤ 50 - 4 ∧ df3[j]? = some c ∧
      c.close < c.opn ∧ c.low < c50.close ∧ sig.stop_loss = c.low ∧
      ∀ k c2, j < k → k ≤ 50 - 4 → 50 - 15 ≤ k → df3[k]? = some c2 →
        ¬ (c2.close < c2.opn ∧ c2.low < c50.close)) :=
  ⟨by norm_num, df3_get_50, long_trigger_df3, by norm_num, by norm_num, df3_get_40,
   by norm_num [obC], by norm_num [obC, c50],
   (detect_signal_ob_scan s0 df3 50 c50 (by norm_num) df3_get_50).2.2.2.2.1
     long_trigger_df3 40 obC (by norm_num) (by norm_num) df3_get_40
     (by norm_num [obC]) (by norm_num [obC, c50])⟩

end FT2
